import Mathlib

/-
  Verification development for `docs/extractor.py` (Merlin support-matrix
  extractor).  The Python program is shallowly embedded: Python dicts become
  association lists, the object heap of field-record dicts becomes an explicit
  list of records addressed by index (so that the aliasing between
  `self.contdata` and `self.data[container][release]` is a provable fact rather
  than a modelling assumption), in-container command execution and the GitHub
  API are oracles passed in as data, and Python exceptions become `Except`.
-/

/-! ## JSON-ish values stored in field records -/

inductive PyVal where
  | s : String → PyVal
  | n : Nat → PyVal
deriving Repr, DecidableEq

/-- Python errors that the modelled code can raise. -/
inductive PyErr where
  | keyError
  | typeError
  | fileNotFoundError
  | githubException
deriving Repr, DecidableEq

/-! ## Association lists modelling Python dicts -/

/-- Dict lookup `d.get(k)`: first (and, for real dicts, only) binding wins. -/
def alget? {α : Type} : List (String × α) → String → Option α
  | [], _ => none
  | (k, v) :: t, key => if k = key then some v else alget? t key

/-- Dict assignment `d[k] = v`: replace in place if the key is present
(keeping its position, as Python dicts do), else append. -/
def alset {α : Type} : List (String × α) → String → α → List (String × α)
  | [], key, v => [(key, v)]
  | (k, w) :: t, key, v => if k = key then (key, v) :: t else (k, w) :: alset t key v

/-- Python `k in d`. -/
def containsKey {α : Type} (d : List (String × α)) (k : String) : Bool :=
  (alget? d k).isSome

/-- The keys of a genuine dict are pairwise distinct. -/
def keysNodup {α : Type} (d : List (String × α)) : Prop :=
  (d.map Prod.fst).Nodup

instance {α : Type} (d : List (String × α)) : Decidable (keysNodup d) := by
  unfold keysNodup; infer_instance

/-- Insert one binding into a key-sorted association list (ascending keys). -/
def keyInsert {α : Type} (p : String × α) : List (String × α) → List (String × α)
  | [] => [p]
  | q :: t => if p.1 ≤ q.1 then p :: q :: t else q :: keyInsert p t

/-- Insertion sort by key; models `sort_keys=True` at one nesting level. -/
def keySort {α : Type} : List (String × α) → List (String × α)
  | [] => []
  | p :: t => keyInsert p (keySort t)

/-! ## Python string helpers (modelled over the character list) -/

/-- Python `str.isspace()`: non-empty and every character is whitespace. -/
def pyIsSpace (s : String) : Bool :=
  !s.toList.isEmpty && s.toList.all Char.isWhitespace

/-- Python `str.strip()`: drop leading and trailing whitespace. -/
def pyStrip (s : String) : String :=
  String.mk (((s.toList.dropWhile Char.isWhitespace).reverse.dropWhile
    Char.isWhitespace).reverse)

/-- Python `str.replace('"', "")`: drop every double-quote character. -/
def removeQuotes (s : String) : String :=
  String.mk (s.toList.filter (fun ch => ch ≠ Char.ofNat 34))

/-- Python `release.replace(".", "")`: drop every dot. -/
def removeDots (s : String) : String :=
  String.mk (s.toList.filter (fun ch => ch ≠ Char.ofNat 46))

/-- Split a character list at every occurrence of a separator character,
keeping empty chunks, as Python `str.split(sep)` does. -/
def splitOnChar (c : Char) : List Char → List (List Char)
  | [] => [[]]
  | x :: xs =>
    let r := splitOnChar c xs
    if x = c then [] :: r
    else
      match r with
      | [] => [[x]]
      | h :: t => (x :: h) :: t

/-- Python `s.split("\n")`. -/
def pyLines (s : String) : List String :=
  (splitOnChar (Char.ofNat 10) s.toList).map String.mk

/-- Split at each character satisfying `p`, keeping empty chunks. -/
def splitWhen (p : Char → Bool) : List Char → List (List Char)
  | [] => [[]]
  | x :: xs =>
    let r := splitWhen p xs
    if p x then [] :: r
    else
      match r with
      | [] => [[x]]
      | h :: t => (x :: h) :: t

/-- Python `s.split()` with no argument: whitespace-separated tokens,
empties discarded. -/
def pySplit (s : String) : List String :=
  ((splitWhen Char.isWhitespace s.toList).filter (fun l => !l.isEmpty)).map String.mk

/-- Does `s` start with the literal text `pre`?  Models Python `startswith`. -/
def listStarts : List Char → List Char → Bool
  | [], _ => true
  | _ :: _, [] => false
  | p :: ps, x :: xs => p = x && listStarts ps xs

def pyStartsWith (pre s : String) : Bool :=
  listStarts pre.toList s.toList

/-- Python `sep.join(parts)`. -/
def joinWith (sep : String) : List String → String
  | [] => ""
  | [x] => x
  | x :: y :: t => x ++ sep ++ joinWith sep (y :: t)

/-- Python `tokens[-1]` (total variant; the call sites never hit `[]`). -/
def lastTokenD (ts : List String) : String := ts.getLastD ""

/-- Round-half-even of `num / den`, modelling Python `round` on the
byte-count-to-GiB ratio (binary-float artifacts are not reproduced). -/
def roundHalfEven (num den : Nat) : Nat :=
  let q := num / den
  let r := num % den
  if 2 * r < den then q
  else if den < 2 * r then q + 1
  else if q % 2 = 0 then q else q + 1

/-- `"{} GB".format(round(bytes / 1024 ** 3, 2))`. -/
def formatSize (bytes : Nat) : String :=
  let centi := roundHalfEven (bytes * 100) (1024 ^ 3)
  let ip := centi / 100
  let fr := centi % 100
  if fr = 0 then Nat.repr ip ++ ".0 GB"
  else if fr % 10 = 0 then Nat.repr ip ++ "." ++ Nat.repr (fr / 10) ++ " GB"
  else if fr < 10 then Nat.repr ip ++ ".0" ++ Nat.repr fr ++ " GB"
  else Nat.repr ip ++ "." ++ Nat.repr fr ++ " GB"

/-! ## The record store -/

/-- A field record: one `(container, release)` cell, field key → value. -/
abbrev FieldRec := List (String × PyVal)

/-- The parsed content of the JSON store file:
container name → release tag → field record. -/
abbrev PStore := List (String × List (String × FieldRec))

/-- In-memory `self.data`, with field records held by reference (heap index)
so that Python aliasing is represented faithfully. -/
abbrev DataDict := List (String × List (String × Nat))

/-- Lookup in the two-level pure store. -/
def alget2 (st : PStore) (c r : String) : Option FieldRec :=
  match alget? st c with
  | none => none
  | some rel => alget? rel r

/-- Lookup of the record reference held at `data[c][r]`. -/
def dataLookup (d : DataDict) (c r : String) : Option Nat :=
  match alget? d c with
  | none => none
  | some rel => alget? rel r

/-- Total number of field records in a pure store. -/
def totalLen : PStore → Nat
  | [] => 0
  | (_, rel) :: rest => rel.length + totalLen rest

/-- Allocate the records of one release map on the heap, starting at address
`base`; returns the reference map and the allocated records in order. -/
def loadRel (base : Nat) : List (String × FieldRec) → List (String × Nat) × List FieldRec
  | [] => ([], [])
  | (k, rc) :: rest =>
    ((k, base) :: (loadRel (base + 1) rest).1, rc :: (loadRel (base + 1) rest).2)

/-- Allocate every record of a parsed store on the heap starting at `base`;
models `json.load` building fresh dict objects. -/
def loadStore (base : Nat) : PStore → DataDict × List FieldRec
  | [] => ([], [])
  | (c, rel) :: rest =>
    ((c, (loadRel base rel).1) :: (loadStore (base + rel.length) rest).1,
      (loadRel base rel).2 ++ (loadStore (base + rel.length) rest).2)

/-- Result of `container.exec_run(...)`: `(exit_code, output)`, the output
already decoded from UTF-8. -/
structure ExecRes where
  code : Nat
  output : String
deriving Repr, DecidableEq

/-! ## SupportMatrixExtractor -/

structure SupportMatrixExtractor where
  /-- All field-record dict objects ever allocated; index = object identity. -/
  heap : List FieldRec
  /-- `self.data`: container → release → record reference. -/
  data : DataDict
  /-- `self.contdata`: reference to the working record. -/
  contdata : Nat
  container_name : String
  release : String
  datafile : String
  force : Bool
deriving Repr, DecidableEq

namespace SupportMatrixExtractor

def ERROR : String := "Not applicable"

/-- `__init__`: fresh empty working record, aliased into
`self.data[name][release]` (the defaultdict auto-creates the inner dict). -/
def init (name release datafile : String) (force : Bool) : SupportMatrixExtractor :=
  { heap := [[]]
    data := [(name, [(release, 0)])]
    contdata := 0
    container_name := name
    release := release
    datafile := datafile
    force := force }

/-- The dict object `self.contdata` currently refers to. -/
def curRec (x : SupportMatrixExtractor) : FieldRec :=
  x.heap.getD x.contdata []

/-- Mutate the dict object `self.contdata` refers to. -/
def writeRec (x : SupportMatrixExtractor) (rc : FieldRec) : SupportMatrixExtractor :=
  { x with heap := x.heap.set x.contdata rc }

/-- `get_from_envfile`: source a shell file in the container and echo one
variable.  `exec` is the container oracle behind `exec_run`. -/
def get_from_envfile (x : SupportMatrixExtractor) (exec : String → ExecRes)
    (path lookup : String) (key : Option String) : SupportMatrixExtractor :=
  let k := key.getD lookup
  let r0 := alset x.curRec k (PyVal.s ERROR)
  let res := exec ("bash -c \x27source " ++ path ++ "; echo $\x7b" ++ lookup ++ "\x7d\x27")
  let result := res.output
  if res.code ≠ 1 ∧ ¬ pyIsSpace result then
    x.writeRec (alset r0 k (PyVal.s (pyStrip (removeQuotes result))))
  else
    x.writeRec r0

/-- `get_from_env`: echo one process environment variable. -/
def get_from_env (x : SupportMatrixExtractor) (exec : String → ExecRes)
    (lookup : String) (key : Option String) : SupportMatrixExtractor :=
  let k := key.getD lookup
  let r0 := alset x.curRec k (PyVal.s ERROR)
  let res := exec ("bash -c \x27echo $\x7b" ++ lookup ++ "\x7d\x27")
  let result := res.output
  if res.code ≠ 1 ∧ ¬ pyIsSpace result then
    x.writeRec (alset r0 k (PyVal.s (pyStrip (removeQuotes result))))
  else
    x.writeRec r0

/-- `get_from_pip`: `python -m pip show <pkg>`, then parse the
`Version:` line. -/
def get_from_pip (x : SupportMatrixExtractor) (exec : String → ExecRes)
    (lookup : String) (key : Option String) : SupportMatrixExtractor :=
  let k := key.getD lookup
  let r0 := alset x.curRec k (PyVal.s ERROR)
  let res := exec ("python -m pip show \x27" ++ lookup ++ "\x27")
  if res.code ≠ 0 then
    x.writeRec r0
  else
    let versions :=
      ((pyLines res.output).filter (fun l => pyStartsWith "Version:" l)).map
        (fun l => lastTokenD (pySplit l))
    if versions.length = 1 then
      x.writeRec (alset r0 k (PyVal.s (pyStrip (versions.headD ""))))
    else
      x.writeRec r0

/-- `get_from_image`: read `self.container.image.attrs[lookup]`.  The guarded
read is inside `try/except KeyError`, but the designated `"Size"` attribute is
read a second time outside the guard (and divided), so a missing or
non-numeric `Size` raises out of the method; the error carries the object
state at the moment the exception escapes. -/
def get_from_image (x : SupportMatrixExtractor) (attrs : List (String × PyVal))
    (lookup : String) (key : Option String) :
    Except (PyErr × SupportMatrixExtractor) SupportMatrixExtractor :=
  let k := key.getD lookup
  let r0 := alset x.curRec k (PyVal.s ERROR)
  let r1 :=
    match alget? attrs lookup with
    | some v => alset r0 k v
    | none => r0
  if lookup = "Size" then
    match alget? attrs "Size" with
    | none => Except.error (PyErr.keyError, x.writeRec r1)
    | some (PyVal.n b) => Except.ok (x.writeRec (alset r1 k (PyVal.s (formatSize b))))
    | some (PyVal.s _) => Except.error (PyErr.typeError, x.writeRec r1)
  else
    Except.ok (x.writeRec r1)

/-- `get_from_cmd`: run an arbitrary command; the `"sm"` key gets its output
re-joined with `", "`. -/
def get_from_cmd (x : SupportMatrixExtractor) (exec : String → ExecRes)
    (cmd key : String) : SupportMatrixExtractor :=
  let r0 := alset x.curRec key (PyVal.s ERROR)
  let res := exec ("bash -c \x27" ++ cmd ++ "\x27")
  if res.code ≠ 1 then
    let r1 := alset r0 key (PyVal.s (pyStrip res.output))
    if key = "sm" then
      x.writeRec (alset r1 key (PyVal.s (joinWith ", " (pySplit res.output))))
    else
      x.writeRec r1
  else
    x.writeRec r0

/-- `insert_snippet`. -/
def insert_snippet (x : SupportMatrixExtractor) (key snip : String) :
    SupportMatrixExtractor :=
  x.writeRec (alset x.curRec key (PyVal.s snip))

/-- `from_json`: `file = none` models an absent backing file (early return);
otherwise the parsed file content replaces `self.data` (fresh objects), the
container key is created if missing, the target release entry is reset to a
fresh empty dict if missing or if force-mode is on, and `self.contdata` is
re-aimed at `self.data[container_name][release]`. -/
def from_json (x : SupportMatrixExtractor) (file : Option PStore) :
    SupportMatrixExtractor :=
  match file with
  | none => x
  | some st =>
    let ld := loadStore x.heap.length st
    let h1 := x.heap ++ ld.2
    let d1 := ld.1
    let d2 :=
      if containsKey d1 x.container_name then d1
      else d1 ++ [(x.container_name, [])]
    let rel2 := (alget? d2 x.container_name).getD []
    if ¬ containsKey rel2 x.release ∨ x.force then
      { x with
        heap := h1 ++ [([] : FieldRec)]
        data := alset d2 x.container_name (alset rel2 x.release h1.length)
        contdata := h1.length }
    else
      { x with
        heap := h1
        data := d2
        contdata := (alget? rel2 x.release).getD 0 }

/-- Dereference `self.data` into the pure store it denotes. -/
def toPure (x : SupportMatrixExtractor) : PStore :=
  x.data.map (fun p => (p.1, p.2.map (fun q => (q.1, x.heap.getD q.2 []))))

/-- Sort one release map and its records by key. -/
def sortRel (rel : List (String × FieldRec)) : List (String × FieldRec) :=
  keySort (rel.map (fun q => (q.1, keySort q.2)))

/-- Sort a pure store by key at every level, as `sort_keys=True` does. -/
def sortStore (st : PStore) : PStore :=
  keySort (st.map (fun p => (p.1, sortRel p.2)))

/-- `to_json`: `json.dumps(self.data, sort_keys=True)`, at mapping level. -/
def to_json (x : SupportMatrixExtractor) : PStore :=
  sortStore x.toPure

/-- `to_json_file`: the mapping written to the backing file
(`json.dump(self.data, f, sort_keys=True, indent=2)`). -/
def to_json_file (x : SupportMatrixExtractor) : PStore :=
  sortStore x.toPure

/-- The release map held at `self.data[self.container_name]`. -/
def relData (x : SupportMatrixExtractor) : List (String × Nat) :=
  (alget? x.data x.container_name).getD []

/-- `already_present`: `fileExists` models `os.path.exists(self.datafile)`. -/
def already_present (x : SupportMatrixExtractor) (fileExists : Bool) : Bool :=
  if fileExists = false then false
  else if containsKey x.data x.container_name = false then false
  else if containsKey x.relData x.release = false then false
  else if (x.heap.getD ((alget? x.relData x.release).getD 0) []).length < 1 then false
  else true

end SupportMatrixExtractor

/-! ## Probe scripts (for stating whole-run properties) -/

/-- One mutation step performed between `from_json` and `to_json_file`:
a probe (with its environment oracle baked in) or a snippet insertion. -/
inductive ProbeOp where
  | envfile (exec : String → ExecRes) (path lookup : String) (key : Option String)
  | env (exec : String → ExecRes) (lookup : String) (key : Option String)
  | pip (exec : String → ExecRes) (lookup : String) (key : Option String)
  | image (attrs : List (String × PyVal)) (lookup : String) (key : Option String)
  | cmd (exec : String → ExecRes) (c k : String)
  | snippet (key snip : String)

def applyOp (x : SupportMatrixExtractor) :
    ProbeOp → Except (PyErr × SupportMatrixExtractor) SupportMatrixExtractor
  | ProbeOp.envfile e p l k => Except.ok (x.get_from_envfile e p l k)
  | ProbeOp.env e l k => Except.ok (x.get_from_env e l k)
  | ProbeOp.pip e l k => Except.ok (x.get_from_pip e l k)
  | ProbeOp.image a l k => x.get_from_image a l k
  | ProbeOp.cmd e c k => Except.ok (x.get_from_cmd e c k)
  | ProbeOp.snippet k s => Except.ok (x.insert_snippet k s)

def applyOps : List ProbeOp → SupportMatrixExtractor →
    Except (PyErr × SupportMatrixExtractor) SupportMatrixExtractor
  | [], x => Except.ok x
  | op :: rest, x =>
    match applyOp x op with
    | Except.error e => Except.error e
    | Except.ok x1 => applyOps rest x1

/-- Well-formedness of a parsed JSON store: object keys are unique at every
level (guaranteed by JSON object semantics). -/
def WFStore (st : PStore) : Prop :=
  keysNodup st ∧
  (∀ p ∈ st, keysNodup p.2) ∧
  (∀ p ∈ st, ∀ q ∈ p.2, keysNodup q.2)

instance (st : PStore) : Decidable (WFStore st) := by
  unfold WFStore; infer_instance

def WFStoreOpt : Option PStore → Prop
  | none => True
  | some st => WFStore st

instance (j : Option PStore) : Decidable (WFStoreOpt j) := by
  cases j <;> { unfold WFStoreOpt; infer_instance }

/-! ## The publish workflow (`open_pr`) -/

/-- The GitHub collaborator, as an oracle: which branch refs already exist
(collision on creation), the local file content read back, the sha returned
by `get_contents`, the commit produced by `update_file`, the file set of
`compare(main, commit)`, and the outcome of `create_pull`. -/
structure GithubEnv where
  branchExists : String → Bool
  fileContent : String
  remoteFileSha : String
  commitSha : String
  diffFiles : List String
  prCreate : Except Unit String

/-- Observable outcome of one `open_pr` run. -/
structure PrRun where
  branchCreated : Option String
  branchDeleted : Bool
  prOpened : Bool
deriving Repr, DecidableEq

/-- The branch-creation retry loop of `open_pr`: try
`base-1`, `base-2`, ...; on a collision increment the counter and, once the
counter passes 25, re-raise the `GithubException`. -/
def branchAttempt (collide : String → Bool) (base : String) (c : Nat) :
    Except PyErr String :=
  if collide (base ++ "-" ++ Nat.repr c) then
    if h : c + 1 > 25 then Except.error PyErr.githubException
    else branchAttempt collide base (c + 1)
  else Except.ok (base ++ "-" ++ Nat.repr c)
termination_by 26 - c
decreasing_by omega

/-- `open_pr(repo, path, release)`.  `ghToken` models `os.environ.get("GH_TOKEN")`.
`update_file` / `compare` / `create_pull` results come from the oracle. -/
def open_pr (env : GithubEnv) (ghToken : Option String)
    (repo path release : String) : Except PyErr PrRun :=
  match ghToken with
  | none => Except.ok { branchCreated := none, branchDeleted := false, prOpened := false }
  | some _ =>
    let pr_branch := "docs-smx-" ++ removeDots release
    match branchAttempt env.branchExists ("refs/heads/" ++ pr_branch) 1 with
    | Except.error e => Except.error e
    | Except.ok remote_branch =>
      if env.diffFiles.length = 0 then
        Except.ok { branchCreated := some remote_branch, branchDeleted := true,
                    prOpened := false }
      else
        match env.prCreate with
        | Except.ok _ =>
          Except.ok { branchCreated := some remote_branch, branchDeleted := false,
                      prOpened := true }
        | Except.error _ =>
          Except.ok { branchCreated := some remote_branch, branchDeleted := false,
                      prOpened := false }

/-- The scratch-branch ref an `open_pr` run created, when it did not raise. -/
def prBranchOf : Except PyErr PrRun → Option (Option String)
  | Except.ok res => some res.branchCreated
  | Except.error _ => none

/-! ## `main`'s startup mtime read -/

/-- Models the prelude of `main`: `jsonfile_start_mtime = jsonfile.stat().st_mtime`
is evaluated on the default store path `scriptdir / "data.json"` before the
`--file` override is applied; `Path.stat` raises `FileNotFoundError` when that
file is absent. -/
def mainStartupMtime (defaultStoreMtime : Option Nat) : Except PyErr Nat :=
  match defaultStoreMtime with
  | none => Except.error PyErr.fileNotFoundError
  | some t => Except.ok t

/-! ## Concrete runs used in the closing examples -/

def exStore1 : PStore :=
  [("nvcr.io/nvidia/merlin/merlin-training", [("22.01", [("cuda", PyVal.s "11.5")])])]

def exOps1 : List ProbeOp :=
  [ProbeOp.snippet "release" "22.02",
   ProbeOp.env (fun _ => ExecRes.mk 0 "11.6\n") "CUDA_VERSION" (some "cuda")]

def exRun1 : SupportMatrixExtractor :=
  match applyOps exOps1
      ((SupportMatrixExtractor.init "nvcr.io/nvidia/merlin/merlin-training"
        "22.02" "data.json" false).from_json (some exStore1)) with
  | Except.ok v => v
  | Except.error e => e.2

def exStore2 : PStore := [("c1", [("22.01", [("k", PyVal.s "v")])])]

def exOps2 : List ProbeOp := [ProbeOp.snippet "cuda" "11.6"]

def exRun2 : SupportMatrixExtractor :=
  match applyOps exOps2
      ((SupportMatrixExtractor.init "c1" "22.02" "data.json" false).from_json
        (some exStore2)) with
  | Except.ok v => v
  | Except.error e => e.2

def exGh1 : GithubEnv :=
  { branchExists := fun _ => false
    fileContent := ""
    remoteFileSha := ""
    commitSha := ""
    diffFiles := []
    prCreate := Except.ok "url" }

def exGh2 : GithubEnv :=
  { branchExists := fun s =>
      (s == "refs/heads/docs-smx-2202-1") || (s == "refs/heads/docs-smx-2202-2")
    fileContent := ""
    remoteFileSha := ""
    commitSha := ""
    diffFiles := ["docs/data.json"]
    prCreate := Except.ok "url" }

/-! ## Invariants used in the whole-run proofs -/

/-- State sanity of an extractor: the working reference is a live heap object,
it is exactly the reference stored at `data[container_name][release]`, and the
dict keys in play are duplicate-free. -/
def BaseInv (x : SupportMatrixExtractor) : Prop :=
  x.contdata < x.heap.length ∧
  dataLookup x.data x.container_name x.release = some x.contdata ∧
  keysNodup x.data ∧
  (∀ c' rel', alget? x.data c' = some rel' → keysNodup rel') ∧
  keysNodup x.curRec

/-- Every `(container, release)` entry of the loaded file other than the one
being processed is still reachable in `data`, holds its original record, and
is a different heap object from the working record. -/
def OthersInv (st : PStore) (x : SupportMatrixExtractor) : Prop :=
  ∀ c' r' rc, (c' ≠ x.container_name ∨ r' ≠ x.release) → alget2 st c' r' = some rc →
    ∃ i, dataLookup x.data c' r' = some i ∧ i ≠ x.contdata ∧ i < x.heap.length ∧
      x.heap.getD i [] = rc

/-! ## Generic lemmas: association lists, sorting, heap access -/

theorem alget?_alset_self {α : Type} (l : List (String × α)) (k : String) (v : α) :
    alget? (alset l k v) k = some v := by
  induction l with
  | nil => simp [alset, alget?]
  | cons p t ih =>
    cases p with
    | mk k' w =>
      by_cases h : k' = k
      · simp [alset, alget?, h]
      · simp [alset, alget?, h, ih]

theorem alget?_alset_ne {α : Type} (l : List (String × α)) (k k' : String) (v : α)
    (h : k' ≠ k) : alget? (alset l k v) k' = alget? l k' := by
  have hkk : k ≠ k' := fun hh => h hh.symm
  induction l with
  | nil => simp [alset, alget?, hkk]
  | cons p t ih =>
    cases p with
    | mk k0 w =>
      by_cases h0 : k0 = k
      · subst h0
        simp [alset, alget?, hkk]
      · simp [alset, alget?, h0, ih]

theorem keys_alset {α : Type} (l : List (String × α)) (k : String) (v : α) :
    (alset l k v).map Prod.fst = if containsKey l k then l.map Prod.fst
      else l.map Prod.fst ++ [k] := by
  induction l with
  | nil => simp [alset, containsKey, alget?]
  | cons p t ih =>
    cases p with
    | mk k0 w =>
      by_cases h0 : k0 = k
      · simp [alset, containsKey, alget?, h0]
      · simp only [alset, containsKey, alget?, h0, if_false, if_neg h0, List.map_cons]
        simp only [containsKey] at ih
        split
        · next hs => simp [ih, hs]
        · next hs => simp [ih, hs]

theorem isSome_of_mem_keys {α : Type} (l : List (String × α)) (k : String)
    (hm : k ∈ l.map Prod.fst) : (alget? l k).isSome = true := by
  induction l with
  | nil => simp at hm
  | cons p t ih =>
    cases p with
    | mk k0 v =>
      by_cases h0 : k0 = k
      · simp [alget?, h0]
      · simp only [List.map_cons, List.mem_cons] at hm
        cases hm with
        | inl hh => exact absurd hh.symm h0
        | inr hh => simpa [alget?, h0] using ih hh

theorem keysNodup_alset {α : Type} (l : List (String × α)) (k : String) (v : α)
    (h : keysNodup l) : keysNodup (alset l k v) := by
  unfold keysNodup at h ⊢
  rw [keys_alset]
  split
  · exact h
  · next hc =>
    have hk : k ∉ l.map Prod.fst := by
      intro hmem
      simp [containsKey, isSome_of_mem_keys l k hmem] at hc
    have hdj : (l.map Prod.fst).Disjoint [k] := by
      intro a ha hb
      rw [List.mem_singleton] at hb
      subst hb
      exact hk ha
    exact List.Nodup.append h (List.nodup_singleton k) hdj

theorem alget?_mem {α : Type} {l : List (String × α)} {k : String} {v : α}
    (h : alget? l k = some v) : (k, v) ∈ l := by
  induction l with
  | nil => simp [alget?] at h
  | cons p t ih =>
    cases p with
    | mk k0 w =>
      by_cases h0 : k0 = k
      · subst h0
        simp [alget?] at h
        simp [h]
      · simp [alget?, h0] at h
        exact List.mem_cons_of_mem _ (ih h)

theorem alget?_append_of_some {α : Type} {l : List (String × α)} (t : List (String × α))
    {k : String} (h : (alget? l k).isSome) : alget? (l ++ t) k = alget? l k := by
  induction l with
  | nil => simp [alget?] at h
  | cons p l' ih =>
    cases p with
    | mk k0 w =>
      by_cases h0 : k0 = k
      · simp [alget?, h0]
      · simp [alget?, h0] at h ⊢
        exact ih h

theorem alget?_append_of_none {α : Type} {l : List (String × α)} (t : List (String × α))
    {k : String} (h : alget? l k = none) : alget? (l ++ t) k = alget? t k := by
  induction l with
  | nil => simp
  | cons p l' ih =>
    cases p with
    | mk k0 w =>
      by_cases h0 : k0 = k
      · simp [alget?, h0] at h
      · simp [alget?, h0] at h ⊢
        exact ih h

theorem keyInsert_perm {α : Type} (p : String × α) (l : List (String × α)) :
    (keyInsert p l).Perm (p :: l) := by
  induction l with
  | nil => simp [keyInsert]
  | cons q t ih =>
    by_cases h : p.1 ≤ q.1
    · simp [keyInsert, h]
    · simp only [keyInsert, h, if_false, if_neg h]
      exact (List.Perm.cons q ih).trans (List.Perm.swap p q t)

theorem keySort_perm {α : Type} (l : List (String × α)) : (keySort l).Perm l := by
  induction l with
  | nil => simp [keySort]
  | cons p t ih =>
    exact (keyInsert_perm p (keySort t)).trans (List.Perm.cons p ih)

theorem alget?_perm {α : Type} {l₁ l₂ : List (String × α)} (h : l₁.Perm l₂)
    (hn : keysNodup l₁) (k : String) : alget? l₁ k = alget? l₂ k := by
  induction h with
  | nil => rfl
  | cons p hperm ih =>
    cases p with
    | mk k0 v =>
      unfold keysNodup at hn
      simp only [List.map_cons, List.nodup_cons] at hn
      by_cases h0 : k0 = k
      · simp [alget?, h0]
      · simp [alget?, h0, ih hn.2]
  | swap p q t =>
    cases p with
    | mk kp vp =>
      cases q with
      | mk kq vq =>
        unfold keysNodup at hn
        simp only [List.map_cons, List.nodup_cons, List.mem_cons] at hn
        have hne : kq ≠ kp := fun hh => hn.1 (Or.inl hh)
        by_cases hq : kq = k
        · subst hq
          have hpk : kp ≠ kq := fun hh => hne hh.symm
          simp [alget?, hpk]
        · by_cases hp : kp = k
          · simp [alget?, hp, hq]
          · simp [alget?, hp, hq]
  | trans h₁ h₂ ih₁ ih₂ =>
    have hn₂ : keysNodup _ := (List.Perm.nodup_iff (h₁.map Prod.fst)).mp hn
    exact (ih₁ hn).trans (ih₂ hn₂)

theorem alget?_keySort {α : Type} (l : List (String × α)) (hn : keysNodup l)
    (k : String) : alget? (keySort l) k = alget? l k := by
  have hperm := keySort_perm l
  have hns : keysNodup (keySort l) :=
    (List.Perm.nodup_iff (hperm.map Prod.fst)).mpr hn
  exact alget?_perm hperm hns k

theorem alget?_mapVal {α β : Type} (l : List (String × α)) (f : α → β) (k : String) :
    alget? (l.map (fun p => (p.1, f p.2))) k = (alget? l k).map f := by
  induction l with
  | nil => simp [alget?]
  | cons p t ih =>
    cases p with
    | mk k0 v =>
      by_cases h0 : k0 = k
      · simp [alget?, h0]
      · simp [alget?, h0, ih]

theorem keys_mapVal {α β : Type} (l : List (String × α)) (f : α → β) :
    (l.map (fun p => (p.1, f p.2))).map Prod.fst = l.map Prod.fst := by
  induction l with
  | nil => rfl
  | cons p t ih => simp [ih]

theorem keysNodup_append_single {α : Type} (l : List (String × α)) (k : String) (v : α)
    (h : keysNodup l) (hk : alget? l k = none) : keysNodup (l ++ [(k, v)]) := by
  unfold keysNodup at h ⊢
  rw [List.map_append]
  have hkm : k ∉ l.map Prod.fst := by
    intro hmem
    have hs := isSome_of_mem_keys l k hmem
    simp [hk] at hs
  have hdj : (l.map Prod.fst).Disjoint [k] := by
    intro a ha hb
    rw [List.mem_singleton] at hb
    subst hb
    exact hkm ha
  exact List.Nodup.append h (List.nodup_singleton k) hdj

theorem getD_set_ne {α : Type} (h : List α) (i j : Nat) (r d : α) (hij : i ≠ j) :
    (h.set i r).getD j d = h.getD j d := by
  induction h generalizing i j with
  | nil => simp
  | cons a t ih =>
    cases i with
    | zero =>
      cases j with
      | zero => exact absurd rfl hij
      | succ j' => simp [List.getD]
    | succ i' =>
      cases j with
      | zero => simp [List.getD]
      | succ j' =>
        have : i' ≠ j' := fun hh => hij (by simp [hh])
        simp only [List.set, List.getD_cons_succ]
        exact ih i' j' this

theorem getD_set_self {α : Type} (h : List α) (i : Nat) (r d : α) (hi : i < h.length) :
    (h.set i r).getD i d = r := by
  induction h generalizing i with
  | nil => simp at hi
  | cons a t ih =>
    cases i with
    | zero => simp [List.getD]
    | succ i' =>
      simp only [List.set, List.getD_cons_succ]
      exact ih i' (by simpa using hi)

theorem getD_append_left {α : Type} (h t : List α) (j : Nat) (d : α)
    (hj : j < h.length) : (h ++ t).getD j d = h.getD j d := by
  induction h generalizing j with
  | nil => simp at hj
  | cons a h' ih =>
    cases j with
    | zero => simp [List.getD]
    | succ j' =>
      simp only [List.cons_append, List.getD_cons_succ]
      exact ih j' (by simpa using hj)

theorem getD_append_ge {α : Type} (h t : List α) (j : Nat) (d : α)
    (hj : h.length ≤ j) : (h ++ t).getD j d = t.getD (j - h.length) d := by
  induction h generalizing j with
  | nil => simp
  | cons a h' ih =>
    cases j with
    | zero => simp at hj
    | succ j' =>
      simp only [List.cons_append, List.getD_cons_succ, List.length_cons]
      rw [ih j' (by simpa using hj)]
      simp [Nat.succ_sub_succ]

/-! ## Lemmas about the `json.load` allocation (`loadRel` / `loadStore`) -/

theorem alget?_eq_none_iff {α : Type} (l : List (String × α)) (k : String) :
    alget? l k = none ↔ k ∉ l.map Prod.fst := by
  constructor
  · intro h hm
    have hs := isSome_of_mem_keys l k hm
    simp [h] at hs
  · intro hm
    cases hh : alget? l k with
    | none => rfl
    | some v => exact absurd (List.mem_map.mpr ⟨(k, v), alget?_mem hh, rfl⟩) hm

theorem loadRel_keys (base : Nat) (rel : List (String × FieldRec)) :
    (loadRel base rel).1.map Prod.fst = rel.map Prod.fst := by
  induction rel generalizing base with
  | nil => rfl
  | cons p rest ih =>
    cases p with
    | mk k rc => simp [loadRel, ih]

theorem loadRel_len (base : Nat) (rel : List (String × FieldRec)) :
    (loadRel base rel).2.length = rel.length := by
  induction rel generalizing base with
  | nil => rfl
  | cons p rest ih =>
    cases p with
    | mk k rc => simp [loadRel, ih]

theorem loadRel_range (base : Nat) (rel : List (String × FieldRec)) (k : String)
    (i : Nat) (h : alget? (loadRel base rel).1 k = some i) :
    base ≤ i ∧ i < base + rel.length := by
  induction rel generalizing base with
  | nil => simp [loadRel, alget?] at h
  | cons p rest ih =>
    cases p with
    | mk k0 rc0 =>
      by_cases h0 : k0 = k
      · simp [loadRel, alget?, h0] at h
        simp only [List.length_cons]
        omega
      · simp only [loadRel, alget?, h0, if_false, if_neg h0] at h
        have := ih (base + 1) h
        simp only [List.length_cons]
        omega

theorem loadRel_none (base : Nat) (rel : List (String × FieldRec)) (k : String)
    (h : alget? rel k = none) : alget? (loadRel base rel).1 k = none := by
  rw [alget?_eq_none_iff] at h ⊢
  rwa [loadRel_keys]

theorem loadRel_get (base : Nat) (rel : List (String × FieldRec)) (k : String)
    (rc : FieldRec) (h : alget? rel k = some rc) :
    ∃ i, alget? (loadRel base rel).1 k = some i ∧ base ≤ i ∧ i < base + rel.length ∧
      (loadRel base rel).2.getD (i - base) [] = rc := by
  induction rel generalizing base with
  | nil => simp [alget?] at h
  | cons p rest ih =>
    cases p with
    | mk k0 rc0 =>
      by_cases h0 : k0 = k
      · simp [alget?, h0] at h
        refine ⟨base, ?_, ?_, ?_, ?_⟩
        · simp [loadRel, alget?, h0]
        · omega
        · simp only [List.length_cons]; omega
        · simp [loadRel, h]
      · simp only [alget?, h0, if_false, if_neg h0] at h
        rcases ih (base + 1) h with ⟨i, hl, hlo, hhi, hg⟩
        refine ⟨i, ?_, by omega, by simp only [List.length_cons]; omega, ?_⟩
        · simp [loadRel, alget?, h0, hl]
        · have hstep : i - base = (i - (base + 1)) + 1 := by omega
          simp only [loadRel, hstep, List.getD_cons_succ]
          exact hg

theorem loadRel_inj (base : Nat) (rel : List (String × FieldRec)) (r r' : String)
    (i i' : Nat) (h : alget? (loadRel base rel).1 r = some i)
    (h' : alget? (loadRel base rel).1 r' = some i') (hne : r ≠ r') : i ≠ i' := by
  induction rel generalizing base with
  | nil => simp [loadRel, alget?] at h
  | cons p rest ih =>
    cases p with
    | mk k0 rc0 =>
      by_cases h0 : k0 = r
      · have h0' : ¬ k0 = r' := fun hh => hne (h0 ▸ hh ▸ rfl)
        simp [loadRel, alget?, h0] at h
        simp only [loadRel, alget?, h0', if_false, if_neg h0'] at h'
        have := loadRel_range (base + 1) rest r' i' h'
        omega
      · by_cases h0' : k0 = r'
        · simp [loadRel, alget?, h0'] at h'
          simp only [loadRel, alget?, h0, if_false, if_neg h0] at h
          have := loadRel_range (base + 1) rest r i h
          omega
        · simp only [loadRel, alget?, h0, h0', if_false, if_neg h0, if_neg h0'] at h h'
          exact ih (base + 1) h h'

theorem loadStore_keys (base : Nat) (st : PStore) :
    (loadStore base st).1.map Prod.fst = st.map Prod.fst := by
  induction st generalizing base with
  | nil => rfl
  | cons p rest ih =>
    cases p with
    | mk c rel => simp [loadStore, ih]

theorem loadStore_len (base : Nat) (st : PStore) :
    (loadStore base st).2.length = totalLen st := by
  induction st generalizing base with
  | nil => rfl
  | cons p rest ih =>
    cases p with
    | mk c rel => simp [loadStore, totalLen, ih, loadRel_len]

theorem loadStore_range (base : Nat) (st : PStore) (c r : String) (i : Nat)
    (h : dataLookup (loadStore base st).1 c r = some i) :
    base ≤ i ∧ i < base + totalLen st := by
  induction st generalizing base with
  | nil => simp [loadStore, dataLookup, alget?] at h
  | cons p rest ih =>
    cases p with
    | mk c0 rel0 =>
      by_cases h0 : c0 = c
      · simp only [loadStore, dataLookup, alget?, h0, if_true, if_pos rfl] at h
        have := loadRel_range base rel0 r i h
        simp only [totalLen]
        omega
      · simp only [loadStore, dataLookup, alget?, h0, if_false, if_neg h0] at h
        have := ih (base + rel0.length) (by simpa [dataLookup] using h)
        simp only [totalLen]
        omega

theorem loadStore_none (base : Nat) (st : PStore) (c r : String)
    (h : alget2 st c r = none) : dataLookup (loadStore base st).1 c r = none := by
  induction st generalizing base with
  | nil => simp [loadStore, dataLookup, alget?]
  | cons p rest ih =>
    cases p with
    | mk c0 rel0 =>
      by_cases h0 : c0 = c
      · simp only [alget2, alget?, h0, if_true, if_pos rfl] at h
        simp only [loadStore, dataLookup, alget?, h0, if_true, if_pos rfl]
        exact loadRel_none base rel0 r h
      · simp only [alget2, alget?, h0, if_false, if_neg h0] at h
        simp only [loadStore, dataLookup, alget?, h0, if_false, if_neg h0]
        exact ih (base + rel0.length) h

theorem loadStore_get (base : Nat) (st : PStore) (c r : String) (rc : FieldRec)
    (h : alget2 st c r = some rc) :
    ∃ i, dataLookup (loadStore base st).1 c r = some i ∧ base ≤ i ∧
      i < base + totalLen st ∧ (loadStore base st).2.getD (i - base) [] = rc := by
  induction st generalizing base with
  | nil => simp [alget2, alget?] at h
  | cons p rest ih =>
    cases p with
    | mk c0 rel0 =>
      by_cases h0 : c0 = c
      · simp only [alget2, alget?, h0, if_true, if_pos rfl] at h
        rcases loadRel_get base rel0 r rc h with ⟨i, hl, hlo, hhi, hg⟩
        refine ⟨i, ?_, hlo, ?_, ?_⟩
        · simp [loadStore, dataLookup, alget?, h0, hl]
        · simp only [totalLen]; omega
        · simp only [loadStore]
          rw [getD_append_left]
          · exact hg
          · rw [loadRel_len]; omega
      · simp only [alget2, alget?, h0, if_false, if_neg h0] at h
        rcases ih (base + rel0.length) h with ⟨i, hl, hlo, hhi, hg⟩
        refine ⟨i, ?_, by omega, ?_, ?_⟩
        · simp only [loadStore, dataLookup, alget?, h0, if_false, if_neg h0]
          simpa [dataLookup] using hl
        · simp only [totalLen]; omega
        · simp only [loadStore]
          rw [getD_append_ge]
          · rw [loadRel_len]
            have harith : i - base - rel0.length = i - (base + rel0.length) := by omega
            rw [harith]
            exact hg
          · rw [loadRel_len]; omega

theorem loadStore_inj (base : Nat) (st : PStore) (c r c' r' : String) (i i' : Nat)
    (h : dataLookup (loadStore base st).1 c r = some i)
    (h' : dataLookup (loadStore base st).1 c' r' = some i')
    (hne : c ≠ c' ∨ r ≠ r') : i ≠ i' := by
  induction st generalizing base with
  | nil => simp [loadStore, dataLookup, alget?] at h
  | cons p rest ih =>
    cases p with
    | mk c0 rel0 =>
      by_cases h0 : c0 = c
      · simp only [dataLookup, loadStore, alget?, h0, if_true, if_pos rfl] at h
        by_cases h0' : c0 = c'
        · simp only [dataLookup, loadStore, alget?, h0', if_true, if_pos rfl] at h'
          have hrr : r ≠ r' := by
            cases hne with
            | inl hc => exact absurd (h0 ▸ h0' ▸ rfl : c = c') hc
            | inr hr => exact hr
          exact loadRel_inj base rel0 r r' i i' h h' hrr
        · simp only [dataLookup, loadStore, alget?, h0', if_false, if_neg h0'] at h'
          have hr1 := loadRel_range base rel0 r i h
          have hr2 := loadStore_range (base + rel0.length)
            rest c' r' i' (by simpa [dataLookup] using h')
          omega
      · simp only [dataLookup, loadStore, alget?, h0, if_false, if_neg h0] at h
        by_cases h0' : c0 = c'
        · simp only [dataLookup, loadStore, alget?, h0', if_true, if_pos rfl] at h'
          have hr1 := loadStore_range (base + rel0.length)
            rest c r i (by simpa [dataLookup] using h)
          have hr2 := loadRel_range base rel0 r' i' h'
          omega
        · simp only [dataLookup, loadStore, alget?, h0', if_false, if_neg h0'] at h'
          exact ih (base + rel0.length) (by simpa [dataLookup] using h)
            (by simpa [dataLookup] using h')

theorem loadStore_rel (base : Nat) (st : PStore) (c : String)
    (d : List (String × Nat)) (h : alget? (loadStore base st).1 c = some d) :
    ∃ b rel, alget? st c = some rel ∧ d = (loadRel b rel).1 := by
  induction st generalizing base with
  | nil => simp [loadStore, alget?] at h
  | cons p rest ih =>
    cases p with
    | mk c0 rel0 =>
      by_cases h0 : c0 = c
      · simp only [loadStore, alget?, h0, if_true, if_pos rfl] at h ⊢
        exact ⟨base, rel0, rfl, (Option.some_inj.mp h).symm⟩
      · simp only [loadStore, alget?, h0, if_false, if_neg h0] at h ⊢
        exact ih (base + rel0.length) h

/-! ## Frame lemmas for the probe methods -/

theorem alget?_append_single_cases {α : Type} (l : List (String × α)) (k k' : String)
    (v w : α) (h : alget? (l ++ [(k, v)]) k' = some w) :
    alget? l k' = some w ∨ (alget? l k' = none ∧ k' = k ∧ w = v) := by
  cases hu : alget? l k' with
  | some u =>
    rw [alget?_append_of_some _ (by simp [hu])] at h
    left
    rw [hu] at h
    exact h
  | none =>
    rw [alget?_append_of_none _ hu] at h
    right
    simp only [alget?] at h
    split at h
    · next hk =>
      refine ⟨rfl, hk.symm, ?_⟩
      exact (Option.some_inj.mp h).symm
    · cases h

theorem writeRec_fixed (x : SupportMatrixExtractor) (rc : FieldRec) :
    (x.writeRec rc).data = x.data ∧ (x.writeRec rc).contdata = x.contdata ∧
    (x.writeRec rc).container_name = x.container_name ∧
    (x.writeRec rc).release = x.release ∧
    (x.writeRec rc).heap.length = x.heap.length ∧
    (∀ i, i ≠ x.contdata → (x.writeRec rc).heap.getD i [] = x.heap.getD i []) :=
  ⟨rfl, rfl, rfl, rfl, by simp [SupportMatrixExtractor.writeRec],
    fun i hi => getD_set_ne _ _ _ _ _ (fun hh => hi hh.symm)⟩

theorem curRec_writeRec (x : SupportMatrixExtractor) (rc : FieldRec)
    (h : x.contdata < x.heap.length) : (x.writeRec rc).curRec = rc := by
  simp only [SupportMatrixExtractor.curRec, SupportMatrixExtractor.writeRec]
  exact getD_set_self _ _ _ _ h

theorem get_from_envfile_shape (x : SupportMatrixExtractor) (e : String → ExecRes)
    (p l : String) (k : Option String) :
    ∃ rc, x.get_from_envfile e p l k = x.writeRec rc ∧
      (keysNodup x.curRec → keysNodup rc) := by
  simp only [SupportMatrixExtractor.get_from_envfile]
  split
  · exact ⟨_, rfl, fun hn => keysNodup_alset _ _ _ (keysNodup_alset _ _ _ hn)⟩
  · exact ⟨_, rfl, fun hn => keysNodup_alset _ _ _ hn⟩

theorem get_from_env_shape (x : SupportMatrixExtractor) (e : String → ExecRes)
    (l : String) (k : Option String) :
    ∃ rc, x.get_from_env e l k = x.writeRec rc ∧
      (keysNodup x.curRec → keysNodup rc) := by
  simp only [SupportMatrixExtractor.get_from_env]
  split
  · exact ⟨_, rfl, fun hn => keysNodup_alset _ _ _ (keysNodup_alset _ _ _ hn)⟩
  · exact ⟨_, rfl, fun hn => keysNodup_alset _ _ _ hn⟩

theorem get_from_pip_shape (x : SupportMatrixExtractor) (e : String → ExecRes)
    (l : String) (k : Option String) :
    ∃ rc, x.get_from_pip e l k = x.writeRec rc ∧
      (keysNodup x.curRec → keysNodup rc) := by
  simp only [SupportMatrixExtractor.get_from_pip]
  split
  · exact ⟨_, rfl, fun hn => keysNodup_alset _ _ _ hn⟩
  · split
    · exact ⟨_, rfl, fun hn => keysNodup_alset _ _ _ (keysNodup_alset _ _ _ hn)⟩
    · exact ⟨_, rfl, fun hn => keysNodup_alset _ _ _ hn⟩

theorem get_from_cmd_shape (x : SupportMatrixExtractor) (e : String → ExecRes)
    (c k : String) :
    ∃ rc, x.get_from_cmd e c k = x.writeRec rc ∧
      (keysNodup x.curRec → keysNodup rc) := by
  simp only [SupportMatrixExtractor.get_from_cmd]
  split
  · split
    · exact ⟨_, rfl, fun hn =>
        keysNodup_alset _ _ _ (keysNodup_alset _ _ _ (keysNodup_alset _ _ _ hn))⟩
    · exact ⟨_, rfl, fun hn => keysNodup_alset _ _ _ (keysNodup_alset _ _ _ hn)⟩
  · exact ⟨_, rfl, fun hn => keysNodup_alset _ _ _ hn⟩

theorem insert_snippet_shape (x : SupportMatrixExtractor) (k s : String) :
    ∃ rc, x.insert_snippet k s = x.writeRec rc ∧
      (keysNodup x.curRec → keysNodup rc) :=
  ⟨_, rfl, fun hn => keysNodup_alset _ _ _ hn⟩

theorem get_from_image_shape (x : SupportMatrixExtractor)
    (attrs : List (String × PyVal)) (lookup : String) (k : Option String)
    (x' : SupportMatrixExtractor) (h : x.get_from_image attrs lookup k = Except.ok x') :
    ∃ rc, x' = x.writeRec rc ∧ (keysNodup x.curRec → keysNodup rc) := by
  simp only [SupportMatrixExtractor.get_from_image] at h
  have hr1 : ∀ r0 key, keysNodup r0 →
      keysNodup (match alget? attrs lookup with
        | some v => alset r0 key v
        | none => r0) := by
    intro r0 key h0
    cases alget? attrs lookup with
    | some v => exact keysNodup_alset _ _ _ h0
    | none => exact h0
  split at h
  · split at h
    · exact Except.noConfusion h
    · injection h with h1
      exact ⟨_, h1.symm, fun hn =>
        keysNodup_alset _ _ _ (hr1 _ _ (keysNodup_alset _ _ _ hn))⟩
    · exact Except.noConfusion h
  · injection h with h1
    exact ⟨_, h1.symm, fun hn => hr1 _ _ (keysNodup_alset _ _ _ hn)⟩

theorem applyOp_shape (x : SupportMatrixExtractor) (op : ProbeOp)
    (x' : SupportMatrixExtractor) (h : applyOp x op = Except.ok x') :
    ∃ rc, x' = x.writeRec rc ∧ (keysNodup x.curRec → keysNodup rc) := by
  cases op with
  | envfile e p l k =>
    rcases get_from_envfile_shape x e p l k with ⟨rc, heq, hn⟩
    simp only [applyOp] at h
    injection h with h1
    exact ⟨rc, by rw [← h1, heq], hn⟩
  | env e l k =>
    rcases get_from_env_shape x e l k with ⟨rc, heq, hn⟩
    simp only [applyOp] at h
    injection h with h1
    exact ⟨rc, by rw [← h1, heq], hn⟩
  | pip e l k =>
    rcases get_from_pip_shape x e l k with ⟨rc, heq, hn⟩
    simp only [applyOp] at h
    injection h with h1
    exact ⟨rc, by rw [← h1, heq], hn⟩
  | image a l k =>
    exact get_from_image_shape x a l k x' (by simpa [applyOp] using h)
  | cmd e c k =>
    rcases get_from_cmd_shape x e c k with ⟨rc, heq, hn⟩
    simp only [applyOp] at h
    injection h with h1
    exact ⟨rc, by rw [← h1, heq], hn⟩
  | snippet k s =>
    rcases insert_snippet_shape x k s with ⟨rc, heq, hn⟩
    simp only [applyOp] at h
    injection h with h1
    exact ⟨rc, by rw [← h1, heq], hn⟩

theorem applyOp_frame (x : SupportMatrixExtractor) (op : ProbeOp)
    (x' : SupportMatrixExtractor) (h : applyOp x op = Except.ok x') :
    x'.data = x.data ∧ x'.contdata = x.contdata ∧
    x'.container_name = x.container_name ∧ x'.release = x.release ∧
    x'.heap.length = x.heap.length ∧
    (∀ i, i ≠ x.contdata → x'.heap.getD i [] = x.heap.getD i []) ∧
    (keysNodup x.curRec → x.contdata < x.heap.length → keysNodup x'.curRec) := by
  rcases applyOp_shape x op x' h with ⟨rc, rfl, hn⟩
  have w := writeRec_fixed x rc
  refine ⟨w.1, w.2.1, w.2.2.1, w.2.2.2.1, w.2.2.2.2.1, w.2.2.2.2.2, ?_⟩
  intro h1 h2
  rw [curRec_writeRec x rc h2]
  exact hn h1

theorem applyOps_frame (ops : List ProbeOp) (x x' : SupportMatrixExtractor)
    (h : applyOps ops x = Except.ok x') :
    x'.data = x.data ∧ x'.contdata = x.contdata ∧
    x'.container_name = x.container_name ∧ x'.release = x.release ∧
    x'.heap.length = x.heap.length ∧
    (∀ i, i ≠ x.contdata → x'.heap.getD i [] = x.heap.getD i []) ∧
    (keysNodup x.curRec → x.contdata < x.heap.length → keysNodup x'.curRec) := by
  induction ops generalizing x with
  | nil =>
    simp only [applyOps] at h
    injection h with h1
    subst h1
    exact ⟨rfl, rfl, rfl, rfl, rfl, fun i _ => rfl, fun a _ => a⟩
  | cons op rest ih =>
    simp only [applyOps] at h
    cases happ : applyOp x op with
    | error e => rw [happ] at h; exact Except.noConfusion h
    | ok x1 =>
      rw [happ] at h
      have f1 := applyOp_frame x op x1 happ
      have f2 := ih x1 h
      refine ⟨f2.1.trans f1.1, f2.2.1.trans f1.2.1, f2.2.2.1.trans f1.2.2.1,
        f2.2.2.2.1.trans f1.2.2.2.1, f2.2.2.2.2.1.trans f1.2.2.2.2.1, ?_, ?_⟩
      · intro i hi
        have hi1 : i ≠ x1.contdata := by rw [f1.2.1]; exact hi
        exact (f2.2.2.2.2.2.1 i hi1).trans (f1.2.2.2.2.2.1 i hi)
      · intro hrec hlt
        have hrec1 := f1.2.2.2.2.2.2 hrec hlt
        have hlt1 : x1.contdata < x1.heap.length := by
          rw [f1.2.1, f1.2.2.2.2.1]; exact hlt
        exact f2.2.2.2.2.2.2 hrec1 hlt1

/-! ## Characterisation of `from_json` on a present file -/

theorem from_json_spec (x : SupportMatrixExtractor) (st : PStore) :
    ∃ d2 rel2, alget? d2 x.container_name = some rel2 ∧
      (d2 = (loadStore x.heap.length st).1 ∨
        (alget? (loadStore x.heap.length st).1 x.container_name = none ∧
         d2 = (loadStore x.heap.length st).1 ++ [(x.container_name, [])] ∧ rel2 = [])) ∧
      (((alget? rel2 x.release = none ∨ x.force = true) ∧
         x.from_json (some st) =
           { x with
             heap := (x.heap ++ (loadStore x.heap.length st).2) ++ [([] : FieldRec)]
             data := alset d2 x.container_name (alset rel2 x.release
               (x.heap.length + totalLen st))
             contdata := x.heap.length + totalLen st }) ∨
       (∃ j, alget? rel2 x.release = some j ∧ x.force = false ∧
         x.from_json (some st) =
           { x with
             heap := x.heap ++ (loadStore x.heap.length st).2
             data := d2
             contdata := j })) := by
  have hlen : (x.heap ++ (loadStore x.heap.length st).2).length =
      x.heap.length + totalLen st := by
    rw [List.length_append, loadStore_len]
  by_cases hc : containsKey (loadStore x.heap.length st).1 x.container_name = true
  · rcases Option.isSome_iff_exists.mp hc with ⟨rel2, hrel2⟩
    refine ⟨(loadStore x.heap.length st).1, rel2, hrel2, Or.inl rfl, ?_⟩
    by_cases hreset : (¬ containsKey rel2 x.release = true ∨ x.force = true)
    · left
      constructor
      · cases hreset with
        | inl hr => exact Or.inl (by
            cases hh : alget? rel2 x.release with
            | none => rfl
            | some j => exact absurd (by simp [containsKey, hh]) hr)
        | inr hf => exact Or.inr hf
      · simp only [SupportMatrixExtractor.from_json]
        rw [if_pos hc, hrel2]
        simp only [Option.getD_some]
        rw [if_pos hreset, hlen]
    · push_neg at hreset
      rcases Option.isSome_iff_exists.mp hreset.1 with ⟨j, hj⟩
      right
      refine ⟨j, hj, ?_, ?_⟩
      · cases hfv : x.force with
        | false => rfl
        | true => exact absurd hfv hreset.2
      · simp only [SupportMatrixExtractor.from_json]
        rw [if_pos hc, hrel2]
        simp only [Option.getD_some]
        rw [if_neg]
        · rw [hj]
          simp only [Option.getD_some]
        · push_neg
          exact ⟨by simp [containsKey, hj], hreset.2⟩
  · have hnone : alget? (loadStore x.heap.length st).1 x.container_name = none := by
      cases hh : alget? (loadStore x.heap.length st).1 x.container_name with
      | none => rfl
      | some w => exact absurd (by simp [containsKey, hh]) hc
    have hd2 : alget? ((loadStore x.heap.length st).1 ++ [(x.container_name, [])])
        x.container_name = some ([] : List (String × Nat)) := by
      rw [alget?_append_of_none _ hnone]
      simp [alget?]
    refine ⟨(loadStore x.heap.length st).1 ++ [(x.container_name, [])], [],
      hd2, Or.inr ⟨hnone, rfl, rfl⟩, ?_⟩
    left
    refine ⟨Or.inl rfl, ?_⟩
    have hempty : ¬ containsKey ([] : List (String × Nat)) x.release = true := by
      simp [containsKey, alget?]
    simp only [SupportMatrixExtractor.from_json]
    rw [if_neg hc, hd2]
    simp only [Option.getD_some]
    rw [if_pos (Or.inl hempty)]
    rw [hlen]

theorem from_json_fixed (x : SupportMatrixExtractor) (j : Option PStore) :
    (x.from_json j).container_name = x.container_name ∧
    (x.from_json j).release = x.release := by
  cases j with
  | none => exact ⟨rfl, rfl⟩
  | some st =>
    rcases from_json_spec x st with ⟨d2, rel2, hd2, hcase, hout⟩
    rcases hout with ⟨hcond, heq⟩ | ⟨j0, hj, hf, heq⟩ <;> rw [heq] <;> exact ⟨rfl, rfl⟩

theorem from_json_aligned (x : SupportMatrixExtractor) (st : PStore) :
    dataLookup (x.from_json (some st)).data x.container_name x.release =
      some (x.from_json (some st)).contdata ∧
    (x.from_json (some st)).contdata < (x.from_json (some st)).heap.length := by
  rcases from_json_spec x st with ⟨d2, rel2, hd2, hcase, hout⟩
  rcases hout with ⟨hcond, heq⟩ | ⟨j0, hj, hf, heq⟩
  · rw [heq]
    constructor
    · simp [dataLookup, alget?_alset_self]
    · simp only [List.length_append, loadStore_len, List.length_singleton]
      omega
  · rw [heq]
    constructor
    · simp [dataLookup, hd2, hj]
    · rcases hcase with hcase | ⟨hnone, hcase, hrel2⟩
      · have hjld : dataLookup (loadStore x.heap.length st).1 x.container_name
            x.release = some j0 := by
          rw [← hcase]
          simp [dataLookup, hd2, hj]
        have := loadStore_range x.heap.length st _ _ _ hjld
        simp only [List.length_append, loadStore_len]
        omega
      · subst hrel2
        simp [alget?] at hj

theorem from_json_others (x : SupportMatrixExtractor) (st : PStore) :
    OthersInv st (x.from_json (some st)) := by
  have hfix := from_json_fixed x (some st)
  intro c' r' rc hne hget
  rw [hfix.1, hfix.2] at hne
  rcases loadStore_get x.heap.length st c' r' rc hget with ⟨i, hi, hlo, hhi, hg⟩
  have hd1some : (alget? (loadStore x.heap.length st).1 c').isSome = true := by
    simp only [dataLookup] at hi
    cases hq : alget? (loadStore x.heap.length st).1 c' with
    | none => rw [hq] at hi; cases hi
    | some q => simp
  have hheap : (x.heap ++ (loadStore x.heap.length st).2).getD i [] = rc := by
    rw [getD_append_ge _ _ _ _ hlo]
    exact hg
  rcases from_json_spec x st with ⟨d2, rel2, hd2, hcase, hout⟩
  have hd2look : dataLookup d2 c' r' = some i := by
    rcases hcase with hcase | ⟨hnone, hcase, hrel2⟩
    · rw [hcase]; exact hi
    · rw [hcase]
      simp only [dataLookup] at hi ⊢
      cases hq : alget? (loadStore x.heap.length st).1 c' with
      | none => rw [hq] at hd1some; cases hd1some
      | some q =>
        rw [alget?_append_of_some _ (by simp [hq]), hq]
        rw [hq] at hi
        exact hi
  rcases hout with ⟨hcond, heq⟩ | ⟨j0, hj, hf, heq⟩
  · rw [heq]
    refine ⟨i, ?_, ?_, ?_, ?_⟩
    · show dataLookup (alset d2 x.container_name
        (alset rel2 x.release (x.heap.length + totalLen st))) c' r' = some i
      by_cases hcc : c' = x.container_name
      · subst hcc
        have hrne : r' ≠ x.release := by
          cases hne with
          | inl hcne => exact absurd rfl hcne
          | inr hrne => exact hrne
        simp only [dataLookup, alget?_alset_self]
        rw [alget?_alset_ne _ _ _ _ hrne]
        simp only [dataLookup, hd2] at hd2look
        exact hd2look
      · simp only [dataLookup]
        rw [alget?_alset_ne _ _ _ _ hcc]
        simp only [dataLookup] at hd2look
        exact hd2look
    · show i ≠ x.heap.length + totalLen st
      omega
    · show i < ((x.heap ++ (loadStore x.heap.length st).2) ++ [([] : FieldRec)]).length
      simp only [List.length_append, loadStore_len, List.length_singleton]
      omega
    · show ((x.heap ++ (loadStore x.heap.length st).2) ++ [([] : FieldRec)]).getD i [] = rc
      rw [getD_append_left]
      · exact hheap
      · simp only [List.length_append, loadStore_len]
        omega
  · rw [heq]
    have hjld : dataLookup (loadStore x.heap.length st).1 x.container_name
        x.release = some j0 := by
      rcases hcase with hcase | ⟨hnone, hcase, hrel2⟩
      · rw [← hcase]
        simp [dataLookup, hd2, hj]
      · subst hrel2
        simp [alget?] at hj
    refine ⟨i, ?_, ?_, ?_, hheap⟩
    · show dataLookup d2 c' r' = some i
      exact hd2look
    · show i ≠ j0
      exact loadStore_inj x.heap.length st c' r' x.container_name x.release i j0
        hi hjld (by tauto)
    · show i < (x.heap ++ (loadStore x.heap.length st).2).length
      simp only [List.length_append, loadStore_len]
      omega

theorem loadStore_relNodup (base : Nat) (st : PStore) (hwf : WFStore st) :
    ∀ c' rel', alget? (loadStore base st).1 c' = some rel' → keysNodup rel' := by
  intro c' rel' h
  rcases loadStore_rel base st c' rel' h with ⟨b, rel, hst, rfl⟩
  unfold keysNodup
  rw [loadRel_keys]
  exact hwf.2.1 (c', rel) (alget?_mem hst)

theorem from_json_dnodup (x : SupportMatrixExtractor) (st : PStore)
    (hwf : WFStore st) : keysNodup (x.from_json (some st)).data := by
  have hld : keysNodup (loadStore x.heap.length st).1 := by
    unfold keysNodup
    rw [loadStore_keys]
    exact hwf.1
  rcases from_json_spec x st with ⟨d2, rel2, hd2, hcase, hout⟩
  have hd2n : keysNodup d2 := by
    rcases hcase with hcase | ⟨hnone, hcase, hrel2⟩
    · rw [hcase]; exact hld
    · rw [hcase]; exact keysNodup_append_single _ _ _ hld hnone
  rcases hout with ⟨hcond, heq⟩ | ⟨j0, hj, hf, heq⟩
  · rw [heq]
    exact keysNodup_alset _ _ _ hd2n
  · rw [heq]
    exact hd2n

theorem from_json_relNodup (x : SupportMatrixExtractor) (st : PStore)
    (hwf : WFStore st) :
    ∀ c' rel', alget? (x.from_json (some st)).data c' = some rel' →
      keysNodup rel' := by
  rcases from_json_spec x st with ⟨d2, rel2, hd2, hcase, hout⟩
  have hd2rel : ∀ c' rel', alget? d2 c' = some rel' → keysNodup rel' := by
    intro c' rel' h
    rcases hcase with hcase | ⟨hnone, hcase, hrel2⟩
    · rw [hcase] at h
      exact loadStore_relNodup x.heap.length st hwf c' rel' h
    · rw [hcase] at h
      rcases alget?_append_single_cases _ _ _ _ _ h with h' | ⟨_, _, rfl⟩
      · exact loadStore_relNodup x.heap.length st hwf c' rel' h'
      · exact List.nodup_nil
  have hrel2n : keysNodup rel2 := hd2rel x.container_name rel2 hd2
  rcases hout with ⟨hcond, heq⟩ | ⟨j0, hj, hf, heq⟩
  · rw [heq]
    intro c' rel' h
    by_cases hcc : c' = x.container_name
    · subst hcc
      rw [alget?_alset_self] at h
      rw [← Option.some_inj.mp h]
      exact keysNodup_alset _ _ _ hrel2n
    · rw [alget?_alset_ne _ _ _ _ hcc] at h
      exact hd2rel c' rel' h
  · rw [heq]
    exact hd2rel

theorem from_json_recNodup (x : SupportMatrixExtractor) (st : PStore)
    (hwf : WFStore st) : keysNodup (x.from_json (some st)).curRec := by
  rcases from_json_spec x st with ⟨d2, rel2, hd2, hcase, hout⟩
  rcases hout with ⟨hcond, heq⟩ | ⟨j0, hj, hf, heq⟩
  · rw [heq]
    show keysNodup (((x.heap ++ (loadStore x.heap.length st).2) ++
      [([] : FieldRec)]).getD (x.heap.length + totalLen st) [])
    have hlen : (x.heap ++ (loadStore x.heap.length st).2).length =
        x.heap.length + totalLen st := by
      rw [List.length_append, loadStore_len]
    rw [getD_append_ge _ _ _ _ (by omega), hlen]
    simp [List.getD, keysNodup]
  · rw [heq]
    show keysNodup ((x.heap ++ (loadStore x.heap.length st).2).getD j0 [])
    have hjld : dataLookup (loadStore x.heap.length st).1 x.container_name
        x.release = some j0 := by
      rcases hcase with hcase | ⟨hnone, hcase, hrel2⟩
      · rw [← hcase]
        simp [dataLookup, hd2, hj]
      · subst hrel2
        simp [alget?] at hj
    have hsome : alget2 st x.container_name x.release ≠ none := by
      intro hn
      rw [loadStore_none x.heap.length st _ _ hn] at hjld
      cases hjld
    rcases Option.ne_none_iff_exists.mp hsome with ⟨rc, hrc⟩
    rcases loadStore_get x.heap.length st _ _ rc hrc.symm with ⟨i, hi, hlo, hhi, hg⟩
    have hij : i = j0 := Option.some_inj.mp (hi.symm.trans hjld)
    subst hij
    rw [getD_append_ge _ _ _ _ hlo, hg]
    have hrc' := hrc.symm
    simp only [alget2] at hrc'
    cases hq : alget? st x.container_name with
    | none => rw [hq] at hrc'; cases hrc'
    | some relS =>
      rw [hq] at hrc'
      exact hwf.2.2 (x.container_name, relS) (alget?_mem hq) (x.release, rc)
        (alget?_mem hrc')

theorem init_baseInv (n r d : String) (f : Bool) :
    BaseInv (SupportMatrixExtractor.init n r d f) := by
  refine ⟨by simp [SupportMatrixExtractor.init], ?_, ?_, ?_, ?_⟩
  · simp [SupportMatrixExtractor.init, dataLookup, alget?]
  · simp [SupportMatrixExtractor.init, keysNodup]
  · intro c' rel' h
    simp only [SupportMatrixExtractor.init, alget?] at h
    split at h
    · rw [← Option.some_inj.mp h]
      simp [keysNodup]
    · cases h
  · simp [SupportMatrixExtractor.init, SupportMatrixExtractor.curRec, List.getD,
      keysNodup]

theorem from_json_baseInv (x : SupportMatrixExtractor) (st : PStore)
    (hwf : WFStore st) : BaseInv (x.from_json (some st)) := by
  have ha := from_json_aligned x st
  have hfix := from_json_fixed x (some st)
  refine ⟨ha.2, ?_, from_json_dnodup x st hwf, from_json_relNodup x st hwf,
    from_json_recNodup x st hwf⟩
  rw [hfix.1, hfix.2]
  exact ha.1

theorem applyOps_baseInv (ops : List ProbeOp) (x x' : SupportMatrixExtractor)
    (h : applyOps ops x = Except.ok x') (hinv : BaseInv x) : BaseInv x' := by
  rcases hinv with ⟨hlt, hal, hdn, hrn, hcn⟩
  have f := applyOps_frame ops x x' h
  refine ⟨?_, ?_, ?_, ?_, ?_⟩
  · rw [f.2.1, f.2.2.2.2.1]; exact hlt
  · rw [f.1, f.2.1, f.2.2.1, f.2.2.2.1]; exact hal
  · rw [f.1]; exact hdn
  · intro c' rel' hh
    rw [f.1] at hh
    exact hrn c' rel' hh
  · exact f.2.2.2.2.2.2 hcn hlt

theorem applyOps_othersInv (st : PStore) (ops : List ProbeOp)
    (x x' : SupportMatrixExtractor) (h : applyOps ops x = Except.ok x')
    (hinv : OthersInv st x) : OthersInv st x' := by
  have f := applyOps_frame ops x x' h
  intro c' r' rc hne hget
  rw [f.2.2.1, f.2.2.2.1] at hne
  rcases hinv c' r' rc hne hget with ⟨i, hl, hneq, hlti, hgd⟩
  refine ⟨i, ?_, ?_, ?_, ?_⟩
  · rw [f.1]; exact hl
  · rw [f.2.1]; exact hneq
  · rw [f.2.2.2.2.1]; exact hlti
  · rw [f.2.2.2.2.2.1 i hneq]
    exact hgd

/-! ## `to_json` reads back what `data` holds -/

theorem to_json_entry (x : SupportMatrixExtractor) (c' r' : String) (i : Nat)
    (hd : keysNodup x.data)
    (hrel : ∀ rel', alget? x.data c' = some rel' → keysNodup rel')
    (hl : dataLookup x.data c' r' = some i) :
    alget2 x.to_json c' r' = some (keySort (x.heap.getD i [])) := by
  simp only [dataLookup] at hl
  cases hq : alget? x.data c' with
  | none => rw [hq] at hl; cases hl
  | some relI =>
    rw [hq] at hl
    have hpure : alget? x.toPure c' =
        some (relI.map (fun q => (q.1, x.heap.getD q.2 []))) := by
      unfold SupportMatrixExtractor.toPure
      rw [alget?_mapVal, hq]
      rfl
    have hnM : keysNodup (x.toPure.map (fun p => (p.1, SupportMatrixExtractor.sortRel p.2))) := by
      unfold keysNodup
      rw [keys_mapVal]
      unfold SupportMatrixExtractor.toPure
      rw [keys_mapVal]
      exact hd
    have hl' : alget? relI r' = some i := hl
    unfold SupportMatrixExtractor.to_json SupportMatrixExtractor.sortStore
    simp only [alget2]
    rw [alget?_keySort _ hnM, alget?_mapVal, hpure]
    simp only [Option.map_some']
    unfold SupportMatrixExtractor.sortRel
    have hnRel : keysNodup ((relI.map (fun q => (q.1, x.heap.getD q.2 []))).map
        (fun q => (q.1, keySort q.2))) := by
      unfold keysNodup
      rw [keys_mapVal _ keySort, keys_mapVal relI (fun n => x.heap.getD n [])]
      exact hrel relI hq
    rw [alget?_keySort _ hnRel, alget?_mapVal _ keySort,
      alget?_mapVal relI (fun n => x.heap.getD n []), hl']
    rfl

/-- Claim C1: for every initial store file content, loading it
(`from_json`), mutating only the `(container, release)` record through probe
and snippet operations, and saving (`to_json_file`), keeps every other
`(container, release)` entry present with an unchanged field record, and
deletes no entry at all. -/
theorem c1_merge_preserves_other_entries
    (st : PStore) (c r d : String) (force : Bool) (ops : List ProbeOp)
    (x2 : SupportMatrixExtractor) (hwf : WFStore st)
    (hrun : applyOps ops ((SupportMatrixExtractor.init c r d force).from_json
      (some st)) = Except.ok x2) :
    (∀ c' r' rc, (c' ≠ c ∨ r' ≠ r) → alget2 st c' r' = some rc →
      ∃ rc', alget2 x2.to_json_file c' r' = some rc' ∧
        ∀ k, alget? rc' k = alget? rc k) ∧
    (∀ c' r', (alget2 st c' r').isSome = true →
      (alget2 x2.to_json_file c' r').isSome = true) := by
  have hx0name : (SupportMatrixExtractor.init c r d force).container_name = c := rfl
  have hx0rel : (SupportMatrixExtractor.init c r d force).release = r := rfl
  have hfix := from_json_fixed (SupportMatrixExtractor.init c r d force) (some st)
  have binv1 := from_json_baseInv (SupportMatrixExtractor.init c r d force) st hwf
  have oinv1 := from_json_others (SupportMatrixExtractor.init c r d force) st
  have binv2 := applyOps_baseInv ops _ x2 hrun binv1
  have oinv2 := applyOps_othersInv st ops _ x2 hrun oinv1
  have fframe := applyOps_frame ops _ x2 hrun
  have hname : x2.container_name = c := by
    rw [fframe.2.2.1, hfix.1, hx0name]
  have hrel : x2.release = r := by
    rw [fframe.2.2.2.1, hfix.2, hx0rel]
  have part1 : ∀ c' r' rc, (c' ≠ c ∨ r' ≠ r) → alget2 st c' r' = some rc →
      ∃ rc', alget2 x2.to_json_file c' r' = some rc' ∧
        ∀ k, alget? rc' k = alget? rc k := by
    intro c' r' rc hne hget
    have hne2 : c' ≠ x2.container_name ∨ r' ≠ x2.release := by
      rw [hname, hrel]
      exact hne
    rcases oinv2 c' r' rc hne2 hget with ⟨i, hl, hneq, hlti, hgd⟩
    refine ⟨keySort rc, ?_, ?_⟩
    · have := to_json_entry x2 c' r' i binv2.2.2.1
        (fun rel' hh => binv2.2.2.2.1 c' rel' hh) hl
      rw [hgd] at this
      exact this
    · intro k
      apply alget?_keySort
      simp only [alget2] at hget
      cases hq : alget? st c' with
      | none => rw [hq] at hget; cases hget
      | some relS =>
        rw [hq] at hget
        exact hwf.2.2 (c', relS) (alget?_mem hq) (r', rc) (alget?_mem hget)
  refine ⟨part1, ?_⟩
  intro c' r' hsome
  rcases Option.isSome_iff_exists.mp hsome with ⟨rc, hrc⟩
  by_cases hcc : c' = c ∧ r' = r
  · rcases hcc with ⟨rfl, rfl⟩
    have hl : dataLookup x2.data c' r' = some x2.contdata := by
      have := binv2.2.1
      rw [hname, hrel] at this
      exact this
    have := to_json_entry x2 c' r' x2.contdata binv2.2.2.1
      (fun rel' hh => binv2.2.2.2.1 c' rel' hh) hl
    simp [SupportMatrixExtractor.to_json_file]
    simp only [SupportMatrixExtractor.to_json] at this
    rw [this]
    rfl
  · have hne : c' ≠ c ∨ r' ≠ r := by tauto
    rcases part1 c' r' rc hne hrc with ⟨rc', hrc', _⟩
    rw [hrc']
    rfl

/-- Claim C10: after construction, and again after `from_json`, the working
record `contdata` is the very object stored at
`data[container_name][release]`, so the writes of every probe and snippet
operation are reflected in the `to_json` output without a copy-back step. -/
theorem c10_contdata_is_data_entry
    (c r d : String) (force : Bool) (j : Option PStore) (ops : List ProbeOp)
    (x2 : SupportMatrixExtractor) (hwf : WFStoreOpt j)
    (hrun : applyOps ops ((SupportMatrixExtractor.init c r d force).from_json j)
      = Except.ok x2) :
    dataLookup x2.data c r = some x2.contdata ∧
    ∃ rc', alget2 x2.to_json c r = some rc' ∧
      ∀ k, alget? rc' k = alget? x2.curRec k := by
  have hfix := from_json_fixed (SupportMatrixExtractor.init c r d force) j
  have binv1 : BaseInv ((SupportMatrixExtractor.init c r d force).from_json j) := by
    cases j with
    | none => exact init_baseInv c r d force
    | some st => exact from_json_baseInv _ st hwf
  have binv2 := applyOps_baseInv ops _ x2 hrun binv1
  have fframe := applyOps_frame ops _ x2 hrun
  have hname : x2.container_name = c := by
    rw [fframe.2.2.1, hfix.1]
    rfl
  have hrelname : x2.release = r := by
    rw [fframe.2.2.2.1, hfix.2]
    rfl
  have hl : dataLookup x2.data c r = some x2.contdata := by
    have := binv2.2.1
    rw [hname, hrelname] at this
    exact this
  refine ⟨hl, keySort x2.curRec, ?_, ?_⟩
  · exact to_json_entry x2 c r x2.contdata binv2.2.2.1
      (fun rel' hh => binv2.2.2.2.1 c rel' hh) hl
  · intro k
    exact alget?_keySort _ binv2.2.2.2.2 k

/-! ## `already_present` and the absent-file path -/

theorem already_present_of_empty (x : SupportMatrixExtractor) (fe : Bool)
    (hal : dataLookup x.data x.container_name x.release = some x.contdata)
    (hcur : x.curRec = []) : x.already_present fe = false := by
  simp only [dataLookup] at hal
  cases hq : alget? x.data x.container_name with
  | none => rw [hq] at hal; cases hal
  | some RD =>
    rw [hq] at hal
    have hal' : alget? RD x.release = some x.contdata := hal
    have hrd : x.relData = RD := by
      unfold SupportMatrixExtractor.relData
      rw [hq]
      rfl
    unfold SupportMatrixExtractor.already_present
    split_ifs with h1 h2 h3 h4
    · rfl
    · rfl
    · rfl
    · rfl
    · exfalso
      apply h4
      rw [hrd, hal']
      simp only [Option.getD_some]
      have hcc : x.heap.getD x.contdata [] = [] := hcur
      rw [hcc]
      simp

theorem from_json_force_curRec (x : SupportMatrixExtractor) (st : PStore)
    (hf : x.force = true) : (x.from_json (some st)).curRec = [] := by
  rcases from_json_spec x st with ⟨d2, rel2, hd2, hcase, hout⟩
  rcases hout with ⟨hcond, heq⟩ | ⟨j0, hj, hff, heq⟩
  · rw [heq]
    show ((x.heap ++ (loadStore x.heap.length st).2) ++
      [([] : FieldRec)]).getD (x.heap.length + totalLen st) [] = []
    have hlen : (x.heap ++ (loadStore x.heap.length st).2).length =
        x.heap.length + totalLen st := by
      rw [List.length_append, loadStore_len]
    rw [getD_append_ge _ _ _ _ (by omega), hlen]
    simp [List.getD]
  · rw [hff] at hf
    cases hf

/-- Claim C4: `already_present` is true iff the store file exists, the
container key exists, the release key exists under it, and that release's
record is non-empty; and it is false after any load performed with force-mode
enabled. -/
theorem c4_already_present_iff :
    (∀ (x : SupportMatrixExtractor) (fe : Bool),
      x.already_present fe = true ↔
        (fe = true ∧ containsKey x.data x.container_name = true ∧
         containsKey x.relData x.release = true ∧
         1 ≤ (x.heap.getD ((alget? x.relData x.release).getD 0) []).length)) ∧
    (∀ (st : PStore) (c r d : String) (fe : Bool),
      ((SupportMatrixExtractor.init c r d true).from_json (some st)).already_present
        fe = false) := by
  constructor
  · intro x fe
    unfold SupportMatrixExtractor.already_present
    split_ifs with h1 h2 h3 h4 <;>
      simp_all [Nat.lt_one_iff, Nat.one_le_iff_ne_zero]
  · intro st c r d fe
    have ha := from_json_aligned (SupportMatrixExtractor.init c r d true) st
    have hfix := from_json_fixed (SupportMatrixExtractor.init c r d true) (some st)
    apply already_present_of_empty
    · rw [hfix.1, hfix.2]
      exact ha.1
    · exact from_json_force_curRec _ st rfl

/-- Claim C9 (code bug): `from_json` on an absent backing file returns
normally and leaves the in-memory store with the single empty record created
by the constructor, but `main` reads the default store file's mtime before
any override is applied, so the run as a whole raises `FileNotFoundError`
when that file is absent instead of treating it as the first-run case. -/
theorem c9_absent_store_file :
    (∀ (n r d : String) (f : Bool),
      (SupportMatrixExtractor.init n r d f).from_json none =
        SupportMatrixExtractor.init n r d f ∧
      (SupportMatrixExtractor.init n r d f).curRec = [] ∧
      (SupportMatrixExtractor.init n r d f).to_json = [(n, [(r, [])])]) ∧
    mainStartupMtime none = Except.error PyErr.fileNotFoundError := by
  constructor
  · intro n r d f
    exact ⟨rfl, rfl, rfl⟩
  · rfl

/-! ## Probe-level properties -/

/-- Claim C2 (amended): for `get_from_envfile`, `get_from_env`, `get_from_pip`
and `get_from_cmd`, and for `get_from_image` on any attribute other than the
designated `"Size"` one, a failing underlying operation writes the sentinel
`"Not applicable"` to the probe's own field key, leaves every other key of
the record unchanged, and returns normally; `get_from_image` with lookup
`"Size"` is excluded because a missing `Size` attribute raises an uncaught
`KeyError` out of the probe. -/
theorem c2_probe_failure_isolation :
    (∀ (x : SupportMatrixExtractor) (exec : String → ExecRes)
        (path lookup : String) (key : Option String) (res : ExecRes),
      x.contdata < x.heap.length →
      exec ("bash -c \x27source " ++ path ++ "; echo $\x7b" ++ lookup ++ "\x7d\x27") = res →
      (res.code = 1 ∨ pyIsSpace res.output = true) →
      alget? (x.get_from_envfile exec path lookup key).curRec (key.getD lookup) =
          some (PyVal.s SupportMatrixExtractor.ERROR) ∧
        ∀ k2, k2 ≠ key.getD lookup →
          alget? (x.get_from_envfile exec path lookup key).curRec k2 =
            alget? x.curRec k2) ∧
    (∀ (x : SupportMatrixExtractor) (exec : String → ExecRes) (lookup : String)
        (key : Option String) (res : ExecRes),
      x.contdata < x.heap.length →
      exec ("bash -c \x27echo $\x7b" ++ lookup ++ "\x7d\x27") = res →
      (res.code = 1 ∨ pyIsSpace res.output = true) →
      alget? (x.get_from_env exec lookup key).curRec (key.getD lookup) =
          some (PyVal.s SupportMatrixExtractor.ERROR) ∧
        ∀ k2, k2 ≠ key.getD lookup →
          alget? (x.get_from_env exec lookup key).curRec k2 = alget? x.curRec k2) ∧
    (∀ (x : SupportMatrixExtractor) (exec : String → ExecRes) (lookup : String)
        (key : Option String) (res : ExecRes),
      x.contdata < x.heap.length →
      exec ("python -m pip show \x27" ++ lookup ++ "\x27") = res →
      (res.code ≠ 0 ∨
        ((pyLines res.output).filter (fun ln => pyStartsWith "Version:" ln)).length
          ≠ 1) →
      alget? (x.get_from_pip exec lookup key).curRec (key.getD lookup) =
          some (PyVal.s SupportMatrixExtractor.ERROR) ∧
        ∀ k2, k2 ≠ key.getD lookup →
          alget? (x.get_from_pip exec lookup key).curRec k2 = alget? x.curRec k2) ∧
    (∀ (x : SupportMatrixExtractor) (exec : String → ExecRes) (cmd key : String)
        (res : ExecRes),
      x.contdata < x.heap.length →
      exec ("bash -c \x27" ++ cmd ++ "\x27") = res →
      res.code = 1 →
      alget? (x.get_from_cmd exec cmd key).curRec key =
          some (PyVal.s SupportMatrixExtractor.ERROR) ∧
        ∀ k2, k2 ≠ key →
          alget? (x.get_from_cmd exec cmd key).curRec k2 = alget? x.curRec k2) ∧
    (∀ (x : SupportMatrixExtractor) (attrs : List (String × PyVal))
        (lookup : String) (key : Option String),
      x.contdata < x.heap.length →
      lookup ≠ "Size" →
      alget? attrs lookup = none →
      ∃ x', x.get_from_image attrs lookup key = Except.ok x' ∧
        alget? x'.curRec (key.getD lookup) =
          some (PyVal.s SupportMatrixExtractor.ERROR) ∧
        ∀ k2, k2 ≠ key.getD lookup → alget? x'.curRec k2 = alget? x.curRec k2) := by
  refine ⟨?_, ?_, ?_, ?_, ?_⟩
  · intro x exec path lookup key res hlt hres hfail
    have hcond : ¬(res.code ≠ 1 ∧ ¬ pyIsSpace res.output = true) := by
      rcases hfail with h | h
      · exact fun hc => hc.1 h
      · exact fun hc => hc.2 h
    simp only [SupportMatrixExtractor.get_from_envfile]
    rw [hres, if_neg hcond, curRec_writeRec x _ hlt]
    exact ⟨alget?_alset_self _ _ _, fun k2 hk2 => alget?_alset_ne _ _ _ _ hk2⟩
  · intro x exec lookup key res hlt hres hfail
    have hcond : ¬(res.code ≠ 1 ∧ ¬ pyIsSpace res.output = true) := by
      rcases hfail with h | h
      · exact fun hc => hc.1 h
      · exact fun hc => hc.2 h
    simp only [SupportMatrixExtractor.get_from_env]
    rw [hres, if_neg hcond, curRec_writeRec x _ hlt]
    exact ⟨alget?_alset_self _ _ _, fun k2 hk2 => alget?_alset_ne _ _ _ _ hk2⟩
  · intro x exec lookup key res hlt hres hfail
    simp only [SupportMatrixExtractor.get_from_pip]
    rw [hres]
    by_cases hc0 : res.code ≠ 0
    · rw [if_pos hc0, curRec_writeRec x _ hlt]
      exact ⟨alget?_alset_self _ _ _, fun k2 hk2 => alget?_alset_ne _ _ _ _ hk2⟩
    · have hlen : ((pyLines res.output).filter
          (fun ln => pyStartsWith "Version:" ln)).length ≠ 1 := by
        rcases hfail with h | h
        · exact absurd h hc0
        · exact h
      have hvlen : ¬(((pyLines res.output).filter
          (fun ln => pyStartsWith "Version:" ln)).map
            (fun ln => lastTokenD (pySplit ln))).length = 1 := by
        rw [List.length_map]
        exact hlen
      rw [if_neg hc0, if_neg hvlen, curRec_writeRec x _ hlt]
      exact ⟨alget?_alset_self _ _ _, fun k2 hk2 => alget?_alset_ne _ _ _ _ hk2⟩
  · intro x exec cmd key res hlt hres hcode
    have hcond : ¬ res.code ≠ 1 := by simp [hcode]
    simp only [SupportMatrixExtractor.get_from_cmd]
    rw [hres, if_neg hcond, curRec_writeRec x _ hlt]
    exact ⟨alget?_alset_self _ _ _, fun k2 hk2 => alget?_alset_ne _ _ _ _ hk2⟩
  · intro x attrs lookup key hlt hsize hnone
    simp only [SupportMatrixExtractor.get_from_image]
    rw [if_neg hsize, hnone]
    refine ⟨_, rfl, ?_, ?_⟩
    · rw [curRec_writeRec x _ hlt]
      exact alget?_alset_self _ _ _
    · intro k2 hk2
      rw [curRec_writeRec x _ hlt]
      exact alget?_alset_ne _ _ _ _ hk2

/-- Claim C2 counterexample: `get_from_image` asked for the `"Size"`
attribute of an image with no such attribute raises (`KeyError` escapes the
probe) instead of returning normally with the sentinel. -/
theorem c2_size_attr_escapes :
    (SupportMatrixExtractor.init "nvcr.io/nvidia/merlin/merlin-training" "22.02"
      "data.json" false).get_from_image [] "Size" none =
    Except.error (PyErr.keyError,
      (SupportMatrixExtractor.init "nvcr.io/nvidia/merlin/merlin-training" "22.02"
        "data.json" false).writeRec [("Size", PyVal.s "Not applicable")]) := rfl

/-- Claim C3 (amended): `get_from_envfile`, `get_from_env` and `get_from_cmd`
treat an execution as failed exactly when the status code equals 1 — any
other status, 0 and codes above 1 alike, is accepted and the behaviour
depends only on the output — whereas `get_from_pip` treats an execution as
failed exactly when the status code differs from 0. -/
theorem c3_status_code_convention :
    (∀ (x : SupportMatrixExtractor) (exec : String → ExecRes)
        (path lookup : String) (key : Option String) (res : ExecRes),
      exec ("bash -c \x27source " ++ path ++ "; echo $\x7b" ++ lookup ++ "\x7d\x27") = res →
      res.code = 1 →
      x.get_from_envfile exec path lookup key =
        x.writeRec (alset x.curRec (key.getD lookup)
          (PyVal.s SupportMatrixExtractor.ERROR))) ∧
    (∀ (x : SupportMatrixExtractor) (exec exec' : String → ExecRes)
        (path lookup : String) (key : Option String) (res res' : ExecRes),
      exec ("bash -c \x27source " ++ path ++ "; echo $\x7b" ++ lookup ++ "\x7d\x27") = res →
      exec' ("bash -c \x27source " ++ path ++ "; echo $\x7b" ++ lookup ++ "\x7d\x27") = res' →
      res.output = res'.output → res.code ≠ 1 → res'.code ≠ 1 →
      x.get_from_envfile exec path lookup key =
        x.get_from_envfile exec' path lookup key) ∧
    (∀ (x : SupportMatrixExtractor) (exec : String → ExecRes) (lookup : String)
        (key : Option String) (res : ExecRes),
      exec ("bash -c \x27echo $\x7b" ++ lookup ++ "\x7d\x27") = res →
      res.code = 1 →
      x.get_from_env exec lookup key =
        x.writeRec (alset x.curRec (key.getD lookup)
          (PyVal.s SupportMatrixExtractor.ERROR))) ∧
    (∀ (x : SupportMatrixExtractor) (exec exec' : String → ExecRes)
        (lookup : String) (key : Option String) (res res' : ExecRes),
      exec ("bash -c \x27echo $\x7b" ++ lookup ++ "\x7d\x27") = res →
      exec' ("bash -c \x27echo $\x7b" ++ lookup ++ "\x7d\x27") = res' →
      res.output = res'.output → res.code ≠ 1 → res'.code ≠ 1 →
      x.get_from_env exec lookup key = x.get_from_env exec' lookup key) ∧
    (∀ (x : SupportMatrixExtractor) (exec : String → ExecRes) (cmd key : String)
        (res : ExecRes),
      exec ("bash -c \x27" ++ cmd ++ "\x27") = res →
      res.code = 1 →
      x.get_from_cmd exec cmd key =
        x.writeRec (alset x.curRec key (PyVal.s SupportMatrixExtractor.ERROR))) ∧
    (∀ (x : SupportMatrixExtractor) (exec exec' : String → ExecRes)
        (cmd key : String) (res res' : ExecRes),
      exec ("bash -c \x27" ++ cmd ++ "\x27") = res →
      exec' ("bash -c \x27" ++ cmd ++ "\x27") = res' →
      res.output = res'.output → res.code ≠ 1 → res'.code ≠ 1 →
      x.get_from_cmd exec cmd key = x.get_from_cmd exec' cmd key) ∧
    (∀ (x : SupportMatrixExtractor) (exec : String → ExecRes) (lookup : String)
        (key : Option String) (res : ExecRes),
      exec ("python -m pip show \x27" ++ lookup ++ "\x27") = res →
      res.code ≠ 0 →
      x.get_from_pip exec lookup key =
        x.writeRec (alset x.curRec (key.getD lookup)
          (PyVal.s SupportMatrixExtractor.ERROR))) := by
  refine ⟨?_, ?_, ?_, ?_, ?_, ?_, ?_⟩
  · intro x exec path lookup key res hres hcode
    simp only [SupportMatrixExtractor.get_from_envfile]
    rw [hres, if_neg (fun hc => hc.1 hcode)]
  · intro x exec exec' path lookup key res res' hres hres' hout hc hc'
    simp only [SupportMatrixExtractor.get_from_envfile]
    rw [hres, hres', hout]
    by_cases hsp : pyIsSpace res'.output = true
    · rw [if_neg (fun hcc => hcc.2 hsp), if_neg (fun hcc => hcc.2 hsp)]
    · rw [if_pos ⟨hc, hsp⟩, if_pos ⟨hc', hsp⟩]
  · intro x exec lookup key res hres hcode
    simp only [SupportMatrixExtractor.get_from_env]
    rw [hres, if_neg (fun hc => hc.1 hcode)]
  · intro x exec exec' lookup key res res' hres hres' hout hc hc'
    simp only [SupportMatrixExtractor.get_from_env]
    rw [hres, hres', hout]
    by_cases hsp : pyIsSpace res'.output = true
    · rw [if_neg (fun hcc => hcc.2 hsp), if_neg (fun hcc => hcc.2 hsp)]
    · rw [if_pos ⟨hc, hsp⟩, if_pos ⟨hc', hsp⟩]
  · intro x exec cmd key res hres hcode
    simp only [SupportMatrixExtractor.get_from_cmd]
    rw [hres, if_neg (fun hc => hc hcode)]
  · intro x exec exec' cmd key res res' hres hres' hout hc hc'
    simp only [SupportMatrixExtractor.get_from_cmd]
    rw [hres, hres', hout]
    rw [if_pos hc, if_pos hc']
  · intro x exec lookup key res hres hcode
    simp only [SupportMatrixExtractor.get_from_pip]
    rw [hres, if_pos hcode]

/-- Claim C3 counterexample: a pip probe whose command exits with status 2 —
a code other than the failure sentinel 1, which the claim says is accepted as
success — is treated as failed: the field keeps the sentinel even though the
output carries a perfectly parsable version line. -/
theorem c3_pip_status_two_is_failure :
    (SupportMatrixExtractor.init "c" "22.02" "data.json" false).get_from_pip
        (fun _ => ExecRes.mk 2 "Version: 1.2.3\n") "rmm" none =
      (SupportMatrixExtractor.init "c" "22.02" "data.json" false).writeRec
        [("rmm", PyVal.s "Not applicable")] ∧
    (2 : Nat) ≠ 1 ∧ (2 : Nat) ≠ 0 :=
  ⟨rfl, by decide, by decide⟩

/-- Claim C7: when the pip command succeeds (status 0) and the output has
exactly one line starting with `"Version:"`, the field is set to the last
whitespace-separated token of that line (the code additionally strips it,
a no-op on whitespace-free tokens); with zero or several such lines the
field keeps the sentinel. -/
theorem c7_pip_version_parse :
    (∀ (x : SupportMatrixExtractor) (exec : String → ExecRes) (lookup : String)
        (key : Option String) (res : ExecRes) (l : String),
      x.contdata < x.heap.length →
      exec ("python -m pip show \x27" ++ lookup ++ "\x27") = res →
      res.code = 0 →
      (pyLines res.output).filter (fun ln => pyStartsWith "Version:" ln) = [l] →
      alget? (x.get_from_pip exec lookup key).curRec (key.getD lookup) =
        some (PyVal.s (pyStrip (lastTokenD (pySplit l))))) ∧
    (∀ (x : SupportMatrixExtractor) (exec : String → ExecRes) (lookup : String)
        (key : Option String) (res : ExecRes),
      x.contdata < x.heap.length →
      exec ("python -m pip show \x27" ++ lookup ++ "\x27") = res →
      res.code = 0 →
      ((pyLines res.output).filter (fun ln => pyStartsWith "Version:" ln)).length
        ≠ 1 →
      alget? (x.get_from_pip exec lookup key).curRec (key.getD lookup) =
        some (PyVal.s SupportMatrixExtractor.ERROR)) := by
  constructor
  · intro x exec lookup key res l hlt hres hcode hfilter
    have hc0 : ¬ res.code ≠ 0 := by simp [hcode]
    simp only [SupportMatrixExtractor.get_from_pip]
    rw [hres, if_neg hc0, hfilter]
    simp only [List.map_cons, List.map_nil]
    rw [if_pos (by simp), curRec_writeRec x _ hlt]
    rw [alget?_alset_self]
    simp [List.headD]
  · intro x exec lookup key res hlt hres hcode hfilter
    have hc0 : ¬ res.code ≠ 0 := by simp [hcode]
    have hvlen : ¬(((pyLines res.output).filter
        (fun ln => pyStartsWith "Version:" ln)).map
          (fun ln => lastTokenD (pySplit ln))).length = 1 := by
      rw [List.length_map]
      exact hfilter
    simp only [SupportMatrixExtractor.get_from_pip]
    rw [hres, if_neg hc0, if_neg hvlen, curRec_writeRec x _ hlt]
    exact alget?_alset_self _ _ _

/-- Claim C8 (amended): for `get_from_envfile` and `get_from_env` with an
accepted status code, output that is non-empty and consists only of
whitespace is treated as failure and the field keeps the sentinel; any other
output — the empty output included, which Python's `"".isspace()` does not
classify as whitespace — is stored after removing every double-quote
character and stripping surrounding whitespace (so empty output is stored as
the empty string, not as the sentinel). -/
theorem c8_whitespace_output_handling :
    (∀ (x : SupportMatrixExtractor) (exec : String → ExecRes)
        (path lookup : String) (key : Option String) (res : ExecRes),
      x.contdata < x.heap.length →
      exec ("bash -c \x27source " ++ path ++ "; echo $\x7b" ++ lookup ++ "\x7d\x27") = res →
      res.code ≠ 1 →
      (pyIsSpace res.output = true →
        alget? (x.get_from_envfile exec path lookup key).curRec (key.getD lookup) =
          some (PyVal.s SupportMatrixExtractor.ERROR)) ∧
      (pyIsSpace res.output = false →
        alget? (x.get_from_envfile exec path lookup key).curRec (key.getD lookup) =
          some (PyVal.s (pyStrip (removeQuotes res.output))))) ∧
    (∀ (x : SupportMatrixExtractor) (exec : String → ExecRes) (lookup : String)
        (key : Option String) (res : ExecRes),
      x.contdata < x.heap.length →
      exec ("bash -c \x27echo $\x7b" ++ lookup ++ "\x7d\x27") = res →
      res.code ≠ 1 →
      (pyIsSpace res.output = true →
        alget? (x.get_from_env exec lookup key).curRec (key.getD lookup) =
          some (PyVal.s SupportMatrixExtractor.ERROR)) ∧
      (pyIsSpace res.output = false →
        alget? (x.get_from_env exec lookup key).curRec (key.getD lookup) =
          some (PyVal.s (pyStrip (removeQuotes res.output))))) := by
  constructor
  · intro x exec path lookup key res hlt hres hcode
    constructor
    · intro hsp
      simp only [SupportMatrixExtractor.get_from_envfile]
      rw [hres, if_neg (fun hc => hc.2 hsp), curRec_writeRec x _ hlt]
      exact alget?_alset_self _ _ _
    · intro hsp
      simp only [SupportMatrixExtractor.get_from_envfile]
      rw [hres, if_pos ⟨hcode, by simp [hsp]⟩, curRec_writeRec x _ hlt]
      exact alget?_alset_self _ _ _
  · intro x exec lookup key res hlt hres hcode
    constructor
    · intro hsp
      simp only [SupportMatrixExtractor.get_from_env]
      rw [hres, if_neg (fun hc => hc.2 hsp), curRec_writeRec x _ hlt]
      exact alget?_alset_self _ _ _
    · intro hsp
      simp only [SupportMatrixExtractor.get_from_env]
      rw [hres, if_pos ⟨hcode, by simp [hsp]⟩, curRec_writeRec x _ hlt]
      exact alget?_alset_self _ _ _

/-- Claim C8 counterexample: with an accepted status and literally empty
output, `get_from_env` stores the empty string — Python's `"".isspace()` is
false, so the claimed "empty output is treated as failure" does not hold and
the field does not keep the sentinel. -/
theorem c8_empty_output_is_stored :
    ((SupportMatrixExtractor.init "c" "22.02" "data.json" false).get_from_env
        (fun _ => ExecRes.mk 0 "") "CUDA_VERSION" (some "cuda")).curRec =
      [("cuda", PyVal.s "")] ∧
    PyVal.s "" ≠ PyVal.s "Not applicable" :=
  ⟨rfl, by decide⟩

/-! ## The branch-creation retry loop -/

theorem branchAttempt_ok (collide : String → Bool) (base : String) (N : Nat)
    (hN : N + 1 ≤ 25)
    (hcoll : ∀ i, 1 ≤ i → i ≤ N → collide (base ++ "-" ++ Nat.repr i) = true)
    (hfree : collide (base ++ "-" ++ Nat.repr (N + 1)) = false) :
    branchAttempt collide base 1 = Except.ok (base ++ "-" ++ Nat.repr (N + 1)) := by
  have main : ∀ fuel c, 1 ≤ c → c ≤ N + 1 → N + 1 - c ≤ fuel →
      branchAttempt collide base c =
        Except.ok (base ++ "-" ++ Nat.repr (N + 1)) := by
    intro fuel
    induction fuel with
    | zero =>
      intro c h1 h2 h3
      have hc : c = N + 1 := by omega
      subst hc
      unfold branchAttempt
      rw [hfree]
      simp
    | succ f ih =>
      intro c h1 h2 h3
      by_cases hc : c = N + 1
      · subst hc
        unfold branchAttempt
        rw [hfree]
        simp
      · have hcN : c ≤ N := by omega
        unfold branchAttempt
        rw [hcoll c h1 hcN]
        simp only [if_true]
        rw [dif_neg (by omega)]
        exact ih (c + 1) (by omega) (by omega) (by omega)
  exact main (N + 1) 1 (by omega) (by omega) (by omega)

theorem branchAttempt_exhausted (collide : String → Bool) (base : String)
    (hcoll : ∀ i, 1 ≤ i → i ≤ 25 → collide (base ++ "-" ++ Nat.repr i) = true) :
    branchAttempt collide base 1 = Except.error PyErr.githubException := by
  have main : ∀ fuel c, 1 ≤ c → c ≤ 25 → 25 - c ≤ fuel →
      branchAttempt collide base c = Except.error PyErr.githubException := by
    intro fuel
    induction fuel with
    | zero =>
      intro c h1 h2 h3
      have hc : c = 25 := by omega
      subst hc
      unfold branchAttempt
      rw [hcoll 25 (by omega) (by omega)]
      simp only [if_true]
      rw [dif_pos (by omega)]
    | succ f ih =>
      intro c h1 h2 h3
      by_cases hc : c = 25
      · subst hc
        unfold branchAttempt
        rw [hcoll 25 (by omega) (by omega)]
        simp only [if_true]
        rw [dif_pos (by omega)]
      · unfold branchAttempt
        rw [hcoll c h1 (by omega)]
        simp only [if_true]
        rw [dif_neg (by omega)]
        exact ih (c + 1) (by omega) (by omega) (by omega)
  exact main 25 1 (by omega) (by omega) (by omega)

/-- Claim C5: once the content is committed on the scratch branch, an empty
file-level diff against the base branch tip makes `open_pr` delete the
scratch branch, create no pull request, and return without error. -/
theorem c5_empty_diff_is_noop
    (env : GithubEnv) (tok repo path release b : String)
    (hbranch : branchAttempt env.branchExists
      ("refs/heads/" ++ ("docs-smx-" ++ removeDots release)) 1 = Except.ok b)
    (hdiff : env.diffFiles = []) :
    open_pr env (some tok) repo path release =
      Except.ok { branchCreated := some b, branchDeleted := true,
                  prOpened := false } := by
  simp only [open_pr]
  rw [hbranch, hdiff]
  simp

/-- Claim C6: the scratch branch is named
`refs/heads/docs-smx-<release without dots>-<counter>` with the counter
starting at 1; collisions bump the counter, so with branches `1..N` taken
(`N + 1 ≤ 25`) the run succeeds using suffix `N + 1`, while 25 colliding
attempts re-raise the `GithubException`, failing the publish phase. -/
theorem c6_branch_naming_and_retry :
    (∀ (env : GithubEnv) (tok repo path release : String) (N : Nat),
      N + 1 ≤ 25 →
      (∀ i, 1 ≤ i → i ≤ N → env.branchExists
        ("refs/heads/" ++ ("docs-smx-" ++ removeDots release) ++ "-" ++
          Nat.repr i) = true) →
      env.branchExists ("refs/heads/" ++ ("docs-smx-" ++ removeDots release) ++
        "-" ++ Nat.repr (N + 1)) = false →
      prBranchOf (open_pr env (some tok) repo path release) =
        some (some ("refs/heads/" ++ ("docs-smx-" ++ removeDots release) ++
          "-" ++ Nat.repr (N + 1)))) ∧
    (∀ (env : GithubEnv) (tok repo path release : String),
      (∀ i, 1 ≤ i → i ≤ 25 → env.branchExists
        ("refs/heads/" ++ ("docs-smx-" ++ removeDots release) ++ "-" ++
          Nat.repr i) = true) →
      open_pr env (some tok) repo path release =
        Except.error PyErr.githubException) := by
  constructor
  · intro env tok repo path release N hN hcoll hfree
    have hb := branchAttempt_ok env.branchExists
      ("refs/heads/" ++ ("docs-smx-" ++ removeDots release)) N hN hcoll hfree
    simp only [open_pr]
    rw [hb]
    by_cases hd : env.diffFiles.length = 0
    · simp [hd, prBranchOf]
    · cases hpc : env.prCreate <;> simp [hd, hpc, prBranchOf]
  · intro env tok repo path release hcoll
    have hb := branchAttempt_exhausted env.branchExists
      ("refs/heads/" ++ ("docs-smx-" ++ removeDots release)) hcoll
    simp only [open_pr]
    rw [hb]

/-! ## Witnesses: the theorems applied at concrete inputs -/

theorem c1_witness :
    (alget2 exRun1.to_json_file "nvcr.io/nvidia/merlin/merlin-training"
      "22.01").isSome = true :=
  (c1_merge_preserves_other_entries exStore1
    "nvcr.io/nvidia/merlin/merlin-training" "22.02" "data.json" false exOps1
    exRun1 (by decide) (by rfl)).2
    "nvcr.io/nvidia/merlin/merlin-training" "22.01" (by decide)

theorem c2_witness :
    alget? ((SupportMatrixExtractor.init "c" "22.02" "data.json"
        false).get_from_envfile (fun _ => ExecRes.mk 1 "x") "/etc/os-release"
        "PRETTY_NAME" (some "os")).curRec "os" =
      some (PyVal.s SupportMatrixExtractor.ERROR) :=
  (c2_probe_failure_isolation.1
    (SupportMatrixExtractor.init "c" "22.02" "data.json" false)
    (fun _ => ExecRes.mk 1 "x") "/etc/os-release" "PRETTY_NAME" (some "os")
    (ExecRes.mk 1 "x") (by decide) rfl (Or.inl rfl)).1

theorem c3_witness :
    (SupportMatrixExtractor.init "c" "22.02" "data.json" false).get_from_pip
        (fun _ => ExecRes.mk 2 "Version: 9.9\n") "cudf" none =
      (SupportMatrixExtractor.init "c" "22.02" "data.json" false).writeRec
        (alset (SupportMatrixExtractor.init "c" "22.02" "data.json"
          false).curRec "cudf" (PyVal.s SupportMatrixExtractor.ERROR)) :=
  c3_status_code_convention.2.2.2.2.2.2
    (SupportMatrixExtractor.init "c" "22.02" "data.json" false)
    (fun _ => ExecRes.mk 2 "Version: 9.9\n") "cudf" none
    (ExecRes.mk 2 "Version: 9.9\n") rfl (by decide)

theorem c5_witness :
    open_pr exGh1 (some "tok") "NVIDIA-Merlin/Merlin" "docs/data.json" "22.02" =
      Except.ok (PrRun.mk (some ("refs/heads/" ++
        ("docs-smx-" ++ removeDots "22.02") ++ "-" ++ Nat.repr 1)) true false) :=
  c5_empty_diff_is_noop exGh1 "tok" "NVIDIA-Merlin/Merlin" "docs/data.json"
    "22.02" ("refs/heads/" ++ ("docs-smx-" ++ removeDots "22.02") ++ "-" ++
      Nat.repr 1)
    (by unfold branchAttempt; simp [exGh1]) rfl

theorem c6_witness :
    prBranchOf (open_pr exGh2 (some "tok") "NVIDIA-Merlin/Merlin"
        "docs/data.json" "22.02") =
      some (some ("refs/heads/" ++ ("docs-smx-" ++ removeDots "22.02") ++ "-" ++
        Nat.repr 3)) :=
  c6_branch_naming_and_retry.1 exGh2 "tok" "NVIDIA-Merlin/Merlin"
    "docs/data.json" "22.02" 2 (by omega)
    (by intro i h1 h2; interval_cases i <;> decide) (by decide)

theorem c7_witness :
    alget? ((SupportMatrixExtractor.init "c" "22.02" "data.json"
        false).get_from_pip (fun _ => ExecRes.mk 0 "Name: rmm\nVersion: 1.2.3\n")
        "rmm" none).curRec "rmm" = some (PyVal.s "1.2.3") :=
  c7_pip_version_parse.1
    (SupportMatrixExtractor.init "c" "22.02" "data.json" false)
    (fun _ => ExecRes.mk 0 "Name: rmm\nVersion: 1.2.3\n") "rmm" none
    (ExecRes.mk 0 "Name: rmm\nVersion: 1.2.3\n") "Version: 1.2.3"
    (by decide) rfl rfl (by decide)

theorem c8_witness :
    alget? ((SupportMatrixExtractor.init "c" "22.02" "data.json"
        false).get_from_envfile (fun _ => ExecRes.mk 0 "\x2211.6\x22\n")
        "/etc/os-release" "PRETTY_NAME" (some "os")).curRec "os" =
      some (PyVal.s "11.6") :=
  (c8_whitespace_output_handling.1
    (SupportMatrixExtractor.init "c" "22.02" "data.json" false)
    (fun _ => ExecRes.mk 0 "\x2211.6\x22\n") "/etc/os-release" "PRETTY_NAME"
    (some "os") (ExecRes.mk 0 "\x2211.6\x22\n") (by decide) rfl
    (by decide)).2 (by decide)

theorem c10_witness :
    dataLookup exRun2.data "c1" "22.02" = some exRun2.contdata :=
  (c10_contdata_is_data_entry "c1" "22.02" "data.json" false (some exStore2)
    exOps2 exRun2 (by decide) (by rfl)).1
